import Mathlib

/-!
Shallow embedding of the synchronization core of the Employee-Management
repository (Next.js API routes under src/app/api/sync/ plus the Supabase
schema), together with proofs settling the frozen claims about it.

Conventions of the embedding:
* JavaScript strings are Lean `String`s; the JS string operations used by the
  routes (split, join, toUpperCase, toLowerCase, trim, includes,
  replace(/[^a-z0-9]/g, "")) are re-implemented below over `List Char`.
* Database rows are Lean structures; nullable columns are `Option`s;
  timestamps are `Nat`s.  A table is a `List` of rows in database order.
* Supabase query semantics: `.single()` / `.maybeSingle()` yield data only
  when exactly one row matches (with more matches they error and the
  destructured `data` is `null`), modelled by `exactlyOne`; a plain select
  yields the full filtered list; an `update` with a payload object leaves
  every column absent from the payload unchanged.
* JS truthiness of a string (empty string is falsy) is modelled explicitly
  wherever the source guards on a string value.
* In this model every issued database write is applied (the store is
  available); exceptions thrown by remote calls are modelled as explicit
  outcome parameters where a claim is about exception paths.
-/

namespace EmpSync

/-! ## JS string primitives (List Char level) -/

/-- JS `String.prototype.split(sep)` for a single-character separator:
`"".split(sep)` is `[""]`, and separators at the ends produce empty pieces. -/
def jsSplit (sep : Char) : List Char → List (List Char)
  | [] => [[]]
  | c :: cs =>
    let rest := jsSplit sep cs
    if c = sep then [] :: rest
    else
      match rest with
      | [] => [[c]]
      | p :: ps => (c :: p) :: ps

/-- JS `Array.prototype.join(sep)` for a single-character separator. -/
def joinSep (sep : Char) : List (List Char) → List Char
  | [] => []
  | [p] => p
  | p :: ps => p ++ sep :: joinSep sep ps

/-- JS `String.prototype.trim()`: drop whitespace from both ends. -/
def jsTrimList (l : List Char) : List Char :=
  ((l.dropWhile Char.isWhitespace).reverse.dropWhile Char.isWhitespace).reverse

/-- Substring test on character lists (JS `String.prototype.includes`). -/
def isPrefixB : List Char → List Char → Bool
  | [], _ => true
  | _ :: _, [] => false
  | a :: as, b :: bs => a == b && isPrefixB as bs

def isSubstrB (needle : List Char) : List Char → Bool
  | [] => needle.isEmpty
  | c :: cs => isPrefixB needle (c :: cs) || isSubstrB needle cs

/-! ## JS string primitives (String level) -/

def jsToLower (s : String) : String := String.mk (s.toList.map Char.toLower)

def jsToUpper (s : String) : String := String.mk (s.toList.map Char.toUpper)

def jsTrim (s : String) : String := String.mk (jsTrimList s.toList)

/-- JS `replace(/[^a-z0-9]/g, "")`: keep only lowercase ASCII letters and
digits (the routes always apply it to already-lowercased names). -/
def jsStripNonAlnum (s : String) : String :=
  String.mk (s.toList.filter fun c =>
    (decide ('a' ≤ c) && decide (c ≤ 'z')) || (decide ('0' ≤ c) && decide (c ≤ '9')))

/-- JS `hay.includes(needle)`. -/
def jsIncludes (hay needle : String) : Bool := isSubstrB needle.toList hay.toList

/-- JS `a || b` for a possibly-absent string `a`: the fallback is taken when
`a` is `undefined`/`null` or the empty string (falsy). -/
def jsOr (a : Option String) (b : String) : String :=
  match a with
  | some s => if s = "" then b else s
  | none => b

/-- Postgres `ILIKE` with a pattern containing no wildcards:
case-insensitive equality. -/
def ilikeEq (a b : String) : Bool := jsToLower a == jsToLower b

/-! ## Normalizer: serial extraction (src/app/api/sync/entra-id/route.ts,
`extractSerialNumber`, lines 130-138 and 207-214) -/

/-- Source translation of `extractSerialNumber`: guard on a falsy name, split
on `'-'`, and when at least two parts exist return
`parts.slice(1).join('-').toUpperCase().trim()`; otherwise `null`. -/
def extractSerialNumber (deviceName : String) : Option String :=
  if deviceName = "" then none
  else
    let parts := jsSplit '-' deviceName.toList
    if 2 ≤ parts.length then
      some (String.mk (jsTrimList ((joinSep '-' (parts.drop 1)).map Char.toUpper)))
    else none

/-- The character list after the first hyphen of a string. -/
def afterFirstHyphen (s : String) : List Char :=
  (s.toList.dropWhile fun c => c != '-').drop 1

/-- Specification-side description of serial extraction: `none` when the name
is empty or has no hyphen, otherwise everything after the first hyphen,
uppercased, then trimmed. -/
def specExtractSerial (s : String) : Option String :=
  if s = "" ∨ ¬ '-' ∈ s.toList then none
  else some (String.mk (jsTrimList ((afterFirstHyphen s).map Char.toUpper)))

/-! ## Unified sync status computation
(src/app/api/sync/all/route.ts, lines 384-392) -/

/-- Aggregated result of one sync stage as the orchestrator records it. -/
structure StageResult where
  recordsSynced : Nat
  recordsFailed : Nat
  errors : List String
deriving DecidableEq

/-- The orchestrator's `results` object: one `StageResult` per stage. -/
structure UnifiedResults where
  azure : StageResult
  ninjaone : StageResult
deriving DecidableEq

def totalSynced (r : UnifiedResults) : Nat :=
  r.azure.recordsSynced + r.ninjaone.recordsSynced

def totalFailed (r : UnifiedResults) : Nat :=
  r.azure.recordsFailed + r.ninjaone.recordsFailed

def hasErrors (r : UnifiedResults) : Bool :=
  !r.azure.errors.isEmpty || !r.ninjaone.errors.isEmpty

/-- Source translation of the status computation at lines 389-390 of
src/app/api/sync/all/route.ts. -/
def computeOverallStatus (r : UnifiedResults) : String :=
  if hasErrors r ∧ totalSynced r = 0 then "failed"
  else if hasErrors r ∨ totalFailed r > 0 then "partial"
  else "success"

/-! ## Cron-secret check (identical in all three sync routes:
all/route.ts 13-20, entra-id/route.ts 11-18, ninjaone/route.ts 12-19) -/

def bearerToken (cronSecret : String) : String := "Bearer " ++ cronSecret

/-- Source translation of the check
`if (authHeader && authHeader !== 'Bearer ' + cronSecret) return 401`:
`true` means the request is rejected with HTTP 401.  A missing header is
`none`; JS truthiness makes an empty-string header falsy. -/
def cronAuthRejected (authHeader : Option String) (cronSecret : String) : Bool :=
  match authHeader with
  | none => false
  | some a => (a != "") && (a != bearerToken cronSecret)

/-! ## Sync Run records (sync_logs table) -/

/-- A row of `sync_logs` (supabase/migrations schema): columns relevant to the
run lifecycle. -/
structure SyncLogRow where
  sync_type : String
  status : String
  records_synced : Nat
  records_failed : Nat
  error_message : Option String
  started_at : Nat
  completed_at : Option Nat
  duration_seconds : Option Nat
deriving DecidableEq

/-- The insert payload used by all three routes when a run starts
(all/route.ts 25-33, entra-id/route.ts 24-32, ninjaone/route.ts 25-33):
`{ sync_type, status: 'success', started_at }`; the remaining columns take
their schema defaults (counts 0, nullables null). -/
def createdSyncLog (syncType : String) (now : Nat) : SyncLogRow :=
  { sync_type := syncType
    status := "success"
    records_synced := 0
    records_failed := 0
    error_message := none
    started_at := now
    completed_at := none
    duration_seconds := none }

/-- Terminal update of a per-source sync run on the normal path
(entra-id/route.ts 567-577, ninjaone/route.ts 605-615). -/
def finalizeSourceSyncLog (row : SyncLogRow) (recordsSynced recordsFailed : Nat)
    (errors : List String) (now duration : Nat) : SyncLogRow :=
  { row with
    status := if recordsFailed > 0 then "partial" else "success"
    records_synced := recordsSynced
    records_failed := recordsFailed
    error_message := if errors.isEmpty then none else some (String.intercalate "; " errors)
    completed_at := some now
    duration_seconds := some duration }

/-- Terminal update of a per-source sync run on the failure path
(entra-id/route.ts 590-600, ninjaone/route.ts 627-637). -/
def failSourceSyncLog (row : SyncLogRow) (recordsSynced recordsFailed : Nat)
    (msg : String) (now duration : Nat) : SyncLogRow :=
  { row with
    status := "failed"
    records_synced := recordsSynced
    records_failed := recordsFailed
    error_message := some msg
    completed_at := some now
    duration_seconds := some duration }

/-! ## Unified orchestrator finalization (src/app/api/sync/all/route.ts) -/

/-- Outcome of invoking one sync stage, as seen by the orchestrator after its
response / timeout / DB-poll handling: either an aggregated result or a
thrown error message. -/
inductive StageOutcome where
  | ok : StageResult → StageOutcome
  | thrown : String → StageOutcome
deriving DecidableEq

def emptyStage : StageResult := { recordsSynced := 0, recordsFailed := 0, errors := [] }

/-- The update written by the outer catch block (all/route.ts 620-628):
status failed, failure count, duration, completion timestamp and message;
`records_synced` is not part of the payload and stays unchanged. -/
def unifiedCatchClose (log : SyncLogRow) (results : UnifiedResults) (msg : String)
    (now duration : Nat) : SyncLogRow :=
  { log with
    status := "failed"
    records_failed := totalFailed results
    duration_seconds := some duration
    completed_at := some now
    error_message := some msg }

/-- The update written on the normal path (all/route.ts 399-406). -/
def unifiedSuccessClose (log : SyncLogRow) (results : UnifiedResults)
    (now duration : Nat) : SyncLogRow :=
  { log with
    status := computeOverallStatus results
    records_synced := totalSynced results
    records_failed := totalFailed results
    duration_seconds := some duration
    completed_at := some now
    error_message :=
      if hasErrors results then
        (let j := String.intercalate "; " (results.azure.errors ++ results.ninjaone.errors)
         if j = "" then none else some j)
      else none }

/-- Effect of the orchestrator's async closure (all/route.ts 52-647) on the
sync_logs row it created, as a function of the two stages' outcomes and of
whether the final-update block itself throws.  The invocation machinery of a
stage (direct fetch, timeout, DB-poll fallback) is abstracted into the
stage's `StageOutcome`; every issued store write succeeds.  Mirrors: the
Azure verification throw at line 309, the NinjaOne stage throw, the outer
catch at 613-641 (status failed + completion stamp), and the last-resort
close at 594-600 (`completed_at` only) when the final-update block throws. -/
def unifiedSyncBody (azureStage ninjaStage : StageOutcome) (finalUpdateThrows : Bool)
    (log : SyncLogRow) (now duration : Nat) : SyncLogRow :=
  match azureStage with
  | .thrown msg => unifiedCatchClose log ⟨emptyStage, emptyStage⟩ msg now duration
  | .ok a =>
    if ¬ a.errors.isEmpty ∨ a.recordsSynced = 0 then
      unifiedCatchClose log ⟨a, emptyStage⟩
        ("Azure sync failed: " ++ String.intercalate "; " a.errors) now duration
    else
      match ninjaStage with
      | .thrown msg =>
        unifiedCatchClose log ⟨a, emptyStage⟩ ("NinjaOne sync failed: " ++ msg) now duration
      | .ok n =>
        if finalUpdateThrows then { log with completed_at := some now }
        else unifiedSuccessClose log ⟨a, n⟩ now duration

/-! ## Store model: devices and device_assignments_history

Columns carried are those read or written by the matching, assignment and
history logic of the two sync routes; enrichment-only columns
(manufacturer, model, os_*, last_seen, device_type) are orthogonal writes and
are not modelled.  Row ids are `Nat`s handed out by per-table counters in the
state, mirroring the database's id generation. -/

structure Device where
  id : Nat
  ninja_device_id : Option String
  azure_device_id : Option String
  employee_id : Option String
  device_name : Option String
  serial_number : Option String
  is_in_ninja : Bool
  status : String
  last_synced_at : Nat
deriving DecidableEq

/-- A row of `device_assignments_history`
(supabase/migrations/create_device_assignments_history.sql). -/
structure HistoryEntry where
  id : Nat
  device_id : Nat
  employee_id : String
  azure_device_id : Option String
  registered_date : Nat
  assignment_date : Nat
  unassignment_date : Option Nat
  is_current : Bool
  sync_id : Nat
deriving DecidableEq

structure DirState where
  devices : List Device
  history : List HistoryEntry
  nextDevId : Nat
  nextHistId : Nat
deriving DecidableEq

def DirState.empty : DirState :=
  { devices := [], history := [], nextDevId := 0, nextHistId := 0 }

/-- Supabase `.single()` / `.maybeSingle()` data semantics: a row only when
exactly one matches the filter. -/
def exactlyOne (p : α → Bool) (l : List α) : Option α :=
  match l.filter p with
  | [x] => some x
  | _ => none

def updateDeviceRow (st : DirState) (targetId : Nat) (f : Device → Device) : DirState :=
  { st with devices := st.devices.map fun d => if d.id = targetId then f d else d }

/-- Deleting a device row; `device_assignments_history.device_id` is
`ON DELETE CASCADE`, so the device's history rows go with it. -/
def deleteDeviceCascade (st : DirState) (targetId : Nat) : DirState :=
  { st with
    devices := st.devices.filter fun d => d.id != targetId
    history := st.history.filter fun h => h.device_id != targetId }

/-- The history-closing update used by both the conflict resolver
(entra-id/route.ts 460-468) and the unregistration pass (393-401):
all rows matching `(device_id, employee_id, is_current = true)` get
`is_current := false` and an unassignment stamp. -/
def closeCurrentHistory (st : DirState) (deviceId : Nat) (employeeId : String)
    (now : Nat) : DirState :=
  { st with history := st.history.map fun h =>
      if h.device_id = deviceId ∧ h.employee_id = employeeId ∧ h.is_current then
        { h with is_current := false, unassignment_date := some now }
      else h }

def setDeviceEmployee (st : DirState) (deviceId : Nat) (emp : Option String) : DirState :=
  updateDeviceRow st deviceId fun d => { d with employee_id := emp }

def insertHistory (st : DirState) (deviceId : Nat) (employeeId : String)
    (azureId : String) (regDate now : Nat) (isCur : Bool) (syncId : Nat) : DirState :=
  { st with
    history := st.history ++
      [{ id := st.nextHistId
         device_id := deviceId
         employee_id := employeeId
         azure_device_id := some azureId
         registered_date := regDate
         assignment_date := now
         unassignment_date := none
         is_current := isCur
         sync_id := syncId }]
    nextHistId := st.nextHistId + 1 }

def setHistoryRegisteredDate (st : DirState) (histId : Nat) (regDate : Nat) : DirState :=
  { st with history := st.history.map fun h =>
      if h.id = histId then { h with registered_date := regDate } else h }

/-! ## Directory (Entra ID) sync: matching and device upsert
(src/app/api/sync/entra-id/route.ts 185-343) -/

/-- A device observation from the directory, as used by the device loop. -/
structure AzureDeviceObs where
  id : String
  displayName : Option String
  isManaged : Bool
deriving DecidableEq

/-- Lookup by `azure_device_id` (entra-id/route.ts 193-197, `.maybeSingle()`). -/
def entraFindByAzureId (st : DirState) (azureId : String) : Option Device :=
  exactlyOne (fun d => d.azure_device_id == some azureId) st.devices

/-- Serial lookup (entra-id/route.ts 223-226): plain filtered select,
`devicesBySerial[0]` is the first row. -/
def entraFindBySerial (st : DirState) (serial : String) : Option Device :=
  (st.devices.filter fun d =>
    match d.serial_number with
    | some s => ilikeEq s serial
    | none => false).head?

/-- Name lookup (entra-id/route.ts 248-253): case-insensitive name equality
restricted to devices with no `azure_device_id`, `.maybeSingle()`. -/
def entraFindByName (st : DirState) (displayName : String) : Option Device :=
  exactlyOne (fun d =>
    (match d.device_name with
     | some n => ilikeEq n displayName
     | none => false) && d.azure_device_id == none) st.devices

/-- Serial-match stage of the directory matcher: runs only with a truthy
extracted serial (entra-id/route.ts 216-243). -/
def entraSerialStage (st : DirState) (obs : AzureDeviceObs) : Option Device :=
  match extractSerialNumber (obs.displayName.getD "") with
  | some sn => if sn = "" then none else entraFindBySerial st sn
  | none => none

/-- Name-match stage of the directory matcher: runs only with a truthy
display name (entra-id/route.ts 247-261). -/
def entraNameStage (st : DirState) (obs : AzureDeviceObs) : Option Device :=
  match obs.displayName with
  | some dn => if dn = "" then none else entraFindByName st dn
  | none => none

/-- The directory matcher cascade (entra-id/route.ts 189-261): external id,
then serial, then name; first hit wins. -/
def entraResolve (st : DirState) (obs : AzureDeviceObs) : Option Device :=
  match entraFindByAzureId st obs.id with
  | some d => some d
  | none =>
    match entraSerialStage st obs with
    | some d => some d
    | none => entraNameStage st obs

/-- Device upsert of the directory sync's user loop
(entra-id/route.ts 278-338).  `employee_id` is only placed in the payload
when the resolved device already carries one (299-301); the payload never
contains it on the insert path (280). -/
def entraUpsertDevice (st : DirState) (obs : AzureDeviceObs) (now : Nat) : DirState :=
  let existing := entraResolve st obs
  let snEff : Option String :=
    match extractSerialNumber (obs.displayName.getD "") with
    | some sn => if sn = "" then none else some sn
    | none => none
  let serialVal : Option String :=
    match snEff with
    | some sn => some sn
    | none =>
      match existing with
      | some e => e.serial_number
      | none => none
  let nameVal : Option String :=
    match obs.displayName with
    | some n => if n = "" then none else some n
    | none => none
  let statusVal : String := if obs.isManaged then "active" else "inactive"
  match existing with
  | some e =>
    updateDeviceRow st e.id fun d =>
      { d with
        azure_device_id := some obs.id
        device_name := nameVal
        serial_number := serialVal
        status := statusVal
        is_in_ninja := e.is_in_ninja
        employee_id :=
          match e.employee_id with
          | some emp => if emp = "" then d.employee_id else some emp
          | none => d.employee_id
        last_synced_at := now }
  | none =>
    { st with
      devices := st.devices ++
        [{ id := st.nextDevId
           ninja_device_id := none
           azure_device_id := some obs.id
           employee_id := none
           device_name := nameVal
           serial_number := serialVal
           is_in_ninja := false
           status := statusVal
           last_synced_at := now }]
      nextDevId := st.nextDevId + 1 }

/-! ## Directory sync: conflict resolution and unregistration
(src/app/api/sync/entra-id/route.ts 370-556) -/

/-- One tracked `(employee, registered_date)` relationship for a device; the
source also carries `employee_name` and the raw observation, which the
resolver only logs. -/
structure DeviceUserRel where
  employee_id : String
  registered_date : Nat
deriving DecidableEq

/-- Stable insertion step for sorting relationships by `registered_date`
descending (the comparator at entra-id/route.ts 437-441). -/
def insertRelDesc (x : DeviceUserRel) : List DeviceUserRel → List DeviceUserRel
  | [] => [x]
  | y :: ys =>
    if y.registered_date < x.registered_date then x :: y :: ys
    else y :: insertRelDesc x ys

def sortRelsDesc (l : List DeviceUserRel) : List DeviceUserRel :=
  l.foldr insertRelDesc []

/-- Current-assignment lookup (entra-id/route.ts 492-498, `.maybeSingle()`). -/
def findCurrentHistoryFor (st : DirState) (deviceId : Nat) (employeeId : String) :
    Option HistoryEntry :=
  exactlyOne (fun h =>
    h.device_id == deviceId && h.employee_id == employeeId && h.is_current) st.history

/-- Any-assignment lookup used for loser audit entries
(entra-id/route.ts 531-536, `.maybeSingle()`, no is_current filter). -/
def findAnyHistoryFor (st : DirState) (deviceId : Nat) (employeeId : String) :
    Option HistoryEntry :=
  exactlyOne (fun h => h.device_id == deviceId && h.employee_id == employeeId) st.history

/-- Audit entries for non-winning relationships
(entra-id/route.ts 529-552): insert a non-current entry unless one already
exists for the device+employee pair. -/
def recordLoserHistory (st : DirState) (deviceId : Nat) (azureId : String)
    (now syncId : Nat) (rels : List DeviceUserRel) : DirState :=
  rels.foldl
    (fun s rel =>
      match findAnyHistoryFor s deviceId rel.employee_id with
      | some _ => s
      | none =>
        insertHistory s deviceId rel.employee_id azureId rel.registered_date now false syncId)
    st

/-- History-closing step of the resolver (entra-id/route.ts 457-473): runs
only when the device had a previous employee that differs from the winner. -/
def reconcileClose (st : DirState) (deviceRecord : Device) (winner : DeviceUserRel)
    (now : Nat) : DirState :=
  match deviceRecord.employee_id with
  | some p =>
    if p ≠ winner.employee_id then closeCurrentHistory st deviceRecord.id p now
    else st
  | none => st

/-- Current-entry step of the resolver (entra-id/route.ts 491-526): update
the existing current entry's registered date, or insert a fresh current
entry. -/
def reconcileEnsureCurrent (st : DirState) (deviceId : Nat) (winner : DeviceUserRel)
    (azureDeviceId : String) (now syncId : Nat) : DirState :=
  match findCurrentHistoryFor st deviceId winner.employee_id with
  | some h => setHistoryRegisteredDate st h.id winner.registered_date
  | none =>
    insertHistory st deviceId winner.employee_id azureDeviceId
      winner.registered_date now true syncId

/-- Conflict resolution for one observed device
(entra-id/route.ts 422-555): look the device up by external id, sort the
relationships by registered date descending, take the head as winner, close
the previous employee's current entry when the winner differs, write the
winning `employee_id`, ensure a current history entry for the winner, and
record losers.  An empty relationship list or a failed lookup leaves the
state unchanged (the source skips / catches there). -/
def reconcileDevice (st : DirState) (azureDeviceId : String)
    (rels : List DeviceUserRel) (now syncId : Nat) : DirState :=
  match exactlyOne (fun d => d.azure_device_id == some azureDeviceId) st.devices with
  | none => st
  | some deviceRecord =>
    match sortRelsDesc rels with
    | [] => st
    | winner :: losers =>
      recordLoserHistory
        (reconcileEnsureCurrent
          (setDeviceEmployee (reconcileClose st deviceRecord winner now)
            deviceRecord.id (some winner.employee_id))
          deviceRecord.id winner azureDeviceId now syncId)
        deviceRecord.id azureDeviceId now syncId losers

/-- The unregistration snapshot (entra-id/route.ts 378-386): devices with a
truthy `azure_device_id` not observed in this run and a truthy
`employee_id`, captured as `(device id, employee id)` pairs. -/
def unregisterSnapshot (st : DirState) (observed : List String) : List (Nat × String) :=
  st.devices.filterMap fun d =>
    match d.azure_device_id, d.employee_id with
    | some a, some e =>
      if a = "" ∨ e = "" ∨ a ∈ observed then none else some (d.id, e)
    | _, _ => none

/-- Per-device unregistration (entra-id/route.ts 391-408): close the current
history entry for the snapshot employee, then clear `employee_id`. -/
def unregisterOne (st : DirState) (deviceId : Nat) (employeeId : String)
    (now : Nat) : DirState :=
  setDeviceEmployee (closeCurrentHistory st deviceId employeeId now) deviceId none

def unregisterFold (now : Nat) (snap : List (Nat × String)) (cur : DirState) : DirState :=
  snap.foldl (fun s pr => unregisterOne s pr.1 pr.2 now) cur

def entraUnregisterPass (st : DirState) (observed : List String) (now : Nat) : DirState :=
  unregisterFold now (unregisterSnapshot st observed) st

/-- The conflict-resolution loop over the run's observation map
(entra-id/route.ts 414-556), iterated in insertion order. -/
def conflictLoop (st : DirState) (obs : List (String × List DeviceUserRel))
    (now syncId : Nat) : DirState :=
  obs.foldl (fun s pr => reconcileDevice s pr.1 pr.2 now syncId) st

/-- The directory sync's end-of-run reconciliation: the unregistration pass
(which the source runs first, 389-409) followed by the conflict loop. -/
def entraReconciliationPhase (st : DirState) (obs : List (String × List DeviceUserRel))
    (now syncId : Nat) : DirState :=
  conflictLoop (entraUnregisterPass st (obs.map Prod.fst) now) obs now syncId

/-! ## Device (NinjaOne) sync: matching and per-device upsert
(src/app/api/sync/ninjaone/route.ts 101-513)

The software-inventory follow-up (516-581) writes only the software /
device_software tables and is fire-and-forget; it does not touch device
rows or assignment history and is not part of this state model. -/

/-- A NinjaOne device observation: listing fields plus the hardware detail
lookup's serial numbers. -/
structure NinjaObs where
  id : String
  systemName : Option String
  dnsName : Option String
  serialNumber : Option String
  biosSerialNumber : Option String
deriving DecidableEq

/-- The raw serial of the observation:
`(details.system?.serialNumber || details.system?.biosSerialNumber || '').trim()`. -/
def ninjaRawSerial (obs : NinjaObs) : String :=
  jsTrim (jsOr obs.serialNumber (jsOr obs.biosSerialNumber ""))

/-- The lowercased, trimmed observation name
(`(device.systemName || device.dnsName || '').toLowerCase().trim()`,
ninjaone/route.ts 112). -/
def ninjaDeviceNameKey (obs : NinjaObs) : String :=
  jsTrim (jsToLower (jsOr obs.systemName (jsOr obs.dnsName "")))

/-- Lookup by `ninja_device_id` (ninjaone/route.ts 115-119, `.single()`). -/
def ninjaFindByNinjaId (st : DirState) (nid : String) : Option Device :=
  exactlyOne (fun d => d.ninja_device_id == some nid) st.devices

/-- Serial-match query of the initial cascade (ninjaone/route.ts 136-141):
Azure devices (`azure_device_id` non-null) not yet linked to NinjaOne
(`ninja_device_id` null) whose stored serial matches case-insensitively. -/
def ninjaSerialMatchQuery (st : DirState) (normSerial : String) : List Device :=
  st.devices.filter fun d =>
    d.azure_device_id != none && d.ninja_device_id == none &&
      (match d.serial_number with
       | some s => ilikeEq s normSerial
       | none => false)

/-- Serial-match stage (ninjaone/route.ts 126-155; the block at 165-192 is a
verbatim repeat on the same state and cannot succeed when this one fails):
runs only with a truthy raw serial, takes `potentialMatches[0]`. -/
def ninjaFindBySerialStrict (st : DirState) (rawSerial : String) : Option Device :=
  if rawSerial = "" then none
  else (ninjaSerialMatchQuery st (jsTrim (jsToUpper rawSerial))).head?

/-- Exact name lookup (ninjaone/route.ts 199-203, `.single()`, no filter on
`ninja_device_id`). -/
def ninjaFindByNameExact (st : DirState) (nameKey : String) : Option Device :=
  exactlyOne (fun d =>
    match d.device_name with
    | some n => ilikeEq n nameKey
    | none => false) st.devices

/-- Fuzzy name scan over all devices (ninjaone/route.ts 208-229): first
device whose lowercased, trimmed stored name equals the observation name
after stripping non-alphanumerics, or is contained in it, or contains it. -/
def ninjaFuzzyNameScan (st : DirState) (nameKey : String) : Option Device :=
  st.devices.find? fun d =>
    let candidateName := jsTrim (jsToLower (d.device_name.getD ""))
    if candidateName = "" then false
    else
      jsStripNonAlnum nameKey == jsStripNonAlnum candidateName ||
        jsIncludes nameKey candidateName || jsIncludes candidateName nameKey

/-- The device matcher cascade before the merge step
(ninjaone/route.ts 110-231): ninja id, then serial, then exact name, then
fuzzy name; the name stages run only with a truthy observation name. -/
def ninjaResolveInitial (st : DirState) (obs : NinjaObs) : Option Device :=
  match ninjaFindByNinjaId st obs.id with
  | some d => some d
  | none =>
    match ninjaFindBySerialStrict st (ninjaRawSerial obs) with
    | some d => some d
    | none =>
      let nameKey := ninjaDeviceNameKey obs
      if nameKey = "" then none
      else
        match ninjaFindByNameExact st nameKey with
        | some d => some d
        | none => ninjaFuzzyNameScan st nameKey

/-- Candidate order for the merge scan: `order('device_name', ascending)`
with nulls last (Postgres default), stable. -/
def devNameLe (a b : Device) : Bool :=
  match a.device_name, b.device_name with
  | none, none => true
  | none, some _ => false
  | some _, none => true
  | some x, some y => decide (x ≤ y)

def insertByNameAsc (x : Device) : List Device → List Device
  | [] => [x]
  | y :: ys => if devNameLe x y ∧ ¬ devNameLe y x then x :: y :: ys else y :: insertByNameAsc x ys

def sortDevicesByNameAsc (l : List Device) : List Device :=
  l.foldr insertByNameAsc []

/-- Candidate set of the merge scan (ninjaone/route.ts 311-327): Azure
devices whose `ninja_device_id` is null or already equal to this NinjaOne
device, ordered by name. -/
def ninjaMergeCandidates (st : DirState) (obsId : String) : List Device :=
  sortDevicesByNameAsc (st.devices.filter fun d =>
    d.azure_device_id != none &&
      (d.ninja_device_id == none || d.ninja_device_id == some obsId))

/-- Match test of the merge scan (ninjaone/route.ts 337-361): serial
extracted from the Azure name equals the normalized NinjaOne serial, or the
serial (length at least 4) appears inside the normalized Azure name. -/
def ninjaMergeScanMatch (normNinjaSerial : String) (d : Device) : Bool :=
  let azureDeviceName := jsTrim (d.device_name.getD "")
  let parts := jsSplit '-' azureDeviceName.toList
  let normalizedAzureSerial :=
    if 2 ≤ parts.length then
      jsStripNonAlnum (jsTrim (jsToLower (String.mk (joinSep '-' (parts.drop 1)))))
    else ""
  let normalizedAzureName := jsStripNonAlnum (jsToLower azureDeviceName)
  let containsSerial := jsIncludes normalizedAzureName normNinjaSerial
  normNinjaSerial != "" &&
    ((normalizedAzureSerial != "" && normNinjaSerial == normalizedAzureSerial) ||
      (decide (4 ≤ normNinjaSerial.length) && containsSerial))

/-- The payload object `deviceData` built at ninjaone/route.ts 270-294:
`employee_id` and `azure_device_id` are present only when the resolved
device carries truthy values (287-294); columns absent from the payload are
left unchanged by an update. -/
structure NinjaDeviceData where
  ninja_device_id : String
  device_name : String
  serial_number : Option String
  status : String
  is_in_ninja : Bool
  employee_id : Option String
  azure_device_id : Option String
  last_synced_at : Nat
deriving DecidableEq

def truthyField (v : Option String) : Option String :=
  match v with
  | some s => if s = "" then none else some s
  | none => none

def applyNinjaDeviceData (dd : NinjaDeviceData) (d : Device) : Device :=
  { d with
    ninja_device_id := some dd.ninja_device_id
    device_name := some dd.device_name
    serial_number := dd.serial_number
    status := dd.status
    is_in_ninja := dd.is_in_ninja
    employee_id :=
      match dd.employee_id with
      | some e => some e
      | none => d.employee_id
    azure_device_id :=
      match dd.azure_device_id with
      | some a => some a
      | none => d.azure_device_id
    last_synced_at := dd.last_synced_at }

def insertNinjaDevice (st : DirState) (dd : NinjaDeviceData) : DirState :=
  { st with
    devices := st.devices ++
      [{ id := st.nextDevId
         ninja_device_id := some dd.ninja_device_id
         azure_device_id := dd.azure_device_id
         employee_id := dd.employee_id
         device_name := some dd.device_name
         serial_number := dd.serial_number
         is_in_ninja := dd.is_in_ninja
         status := dd.status
         last_synced_at := dd.last_synced_at }]
    nextDevId := st.nextDevId + 1 }

/-- Stable descending insertion by `last_synced_at` (the comparator at
ninjaone/route.ts 447-451 with timestamps as `Nat`s). -/
def insertBySyncedDesc (x : Device) : List Device → List Device
  | [] => [x]
  | y :: ys =>
    if y.last_synced_at < x.last_synced_at then x :: y :: ys
    else y :: insertBySyncedDesc x ys

def sortBySyncedDesc (l : List Device) : List Device :=
  l.foldr insertBySyncedDesc []

/-- Serial query of the insert path (ninjaone/route.ts 432-437): Azure
devices whose `ninja_device_id` is null or equals this device, serial
matched case-insensitively. -/
def ninjaInsertPathSerialQuery (st : DirState) (obsId normSerial : String) : List Device :=
  st.devices.filter fun d =>
    d.azure_device_id != none &&
      (d.ninja_device_id == none || d.ninja_device_id == some obsId) &&
      (match d.serial_number with
       | some s => ilikeEq s normSerial
       | none => false)

/-- The `deviceData` payload as first built (ninjaone/route.ts 270-294):
`employee_id` / `azure_device_id` keys only when the resolved device carries
truthy values. -/
def ninjaBuildDeviceData (existing0 : Option Device) (obs : NinjaObs) (now : Nat) :
    NinjaDeviceData :=
  { ninja_device_id := obs.id
    device_name :=
      jsOr obs.systemName (jsOr obs.dnsName
        (match existing0 with
         | some e => jsOr e.device_name "Unknown Device"
         | none => "Unknown Device"))
    serial_number :=
      (let s := jsOr obs.serialNumber (jsOr obs.biosSerialNumber "")
       if s = "" then none else some s)
    status := "active"
    is_in_ninja := true
    employee_id :=
      match existing0 with
      | some e => truthyField e.employee_id
      | none => none
    azure_device_id :=
      match existing0 with
      | some e => truthyField e.azure_device_id
      | none => none
    last_synced_at := now }

/-- Payload adjustment after the merge scan found the Azure device `az`
(ninjaone/route.ts 384-390): copy its truthy `azure_device_id`, and inside
that guard its truthy `employee_id`. -/
def ninjaMergeDD (dd0 : NinjaDeviceData) (az : Device) : NinjaDeviceData :=
  match truthyField az.azure_device_id with
  | some a =>
    { dd0 with
      azure_device_id := some a
      employee_id :=
        match truthyField az.employee_id with
        | some emp => some emp
        | none => dd0.employee_id }
  | none => dd0

/-- The merge step for a resolved device without a truthy `azure_device_id`
(ninjaone/route.ts 298-392 plus the following update at 396-412): scan Azure
devices for a serial match; on a hit delete the old row (cascade) and update
the Azure row with the adjusted payload; otherwise update the old row. -/
def ninjaMergeStep (st : DirState) (obs : NinjaObs) (e : Device)
    (dd0 : NinjaDeviceData) (rawSerial : String) : DirState :=
  match (ninjaMergeCandidates st obs.id).find?
      (ninjaMergeScanMatch (jsStripNonAlnum (jsToLower rawSerial))) with
  | some az =>
    updateDeviceRow (deleteDeviceCascade st e.id) az.id
      (applyNinjaDeviceData (ninjaMergeDD dd0 az))
  | none => updateDeviceRow st e.id (applyNinjaDeviceData dd0)

/-- Payload adjustment of the insert-path serial match
(ninjaone/route.ts 474-481): truthy `azure_device_id` and `employee_id` of
the best match are copied in independent guards. -/
def ninjaBestMatchDD (dd0 : NinjaDeviceData) (bm : Device) : NinjaDeviceData :=
  { dd0 with
    azure_device_id :=
      match truthyField bm.azure_device_id with
      | some a => some a
      | none => dd0.azure_device_id
    employee_id :=
      match truthyField bm.employee_id with
      | some emp => some emp
      | none => dd0.employee_id }

/-- The insert path when nothing resolved (ninjaone/route.ts 413-513):
re-check Azure devices by serial, preferring the most recently synced on a
tie set; update the best match unless it is bound to a different NinjaOne
device; otherwise insert a new NinjaOne-only row. -/
def ninjaBestSerialMatch (st : DirState) (obsId rawSerial : String) : Option Device :=
  if 2 ≤ (ninjaInsertPathSerialQuery st obsId (jsTrim (jsToUpper rawSerial))).length then
    (sortBySyncedDesc (ninjaInsertPathSerialQuery st obsId (jsTrim (jsToUpper rawSerial)))).head?
  else (ninjaInsertPathSerialQuery st obsId (jsTrim (jsToUpper rawSerial))).head?

def ninjaInsertPathStep (st : DirState) (obs : NinjaObs) (dd0 : NinjaDeviceData)
    (rawSerial : String) : DirState :=
  if rawSerial = "" then insertNinjaDevice st dd0
  else
    match ninjaBestSerialMatch st obs.id rawSerial with
    | some bm =>
      if bm.ninja_device_id != none && bm.ninja_device_id != some obs.id then
        insertNinjaDevice st dd0
      else updateDeviceRow st bm.id (applyNinjaDeviceData (ninjaBestMatchDD dd0 bm))
    | none => insertNinjaDevice st dd0

/-- Effect of one NinjaOne device upsert on the store
(ninjaone/route.ts 101-513): resolve via `ninjaResolveInitial`; when the
resolved device has no truthy `azure_device_id` and the observation has a
truthy serial, run the merge step; otherwise update the resolved row; with
no resolved device, run the insert path. -/
def ninjaUpsertDevice (st : DirState) (obs : NinjaObs) (now : Nat) : DirState :=
  match ninjaResolveInitial st obs with
  | some e =>
    if truthyField e.azure_device_id = none ∧ ninjaRawSerial obs ≠ "" then
      ninjaMergeStep st obs e (ninjaBuildDeviceData (some e) obs now) (ninjaRawSerial obs)
    else updateDeviceRow st e.id (applyNinjaDeviceData (ninjaBuildDeviceData (some e) obs now))
  | none =>
    ninjaInsertPathStep st obs (ninjaBuildDeviceData none obs now) (ninjaRawSerial obs)

/-! ## Observational predicates used by the reconciliation theorems -/

/-- Every device row of `cur` has an ancestor row in `base` with the same id
and the same directory external id: the reconciliation phase only rewrites
`employee_id`. -/
def azureShapePreserved (base cur : DirState) : Prop :=
  ∀ y ∈ cur.devices, ∃ x ∈ base.devices, x.id = y.id ∧ x.azure_device_id = y.azure_device_id

/-- Every history row of `cur` carrying the given row id is closed with the
given unassignment stamp. -/
def rowsClosedFor (cur : DirState) (hid now : Nat) : Prop :=
  ∀ h' ∈ cur.history, h'.id = hid → h'.is_current = false ∧ h'.unassignment_date = some now

/-- Every device row of `cur` with the given id satisfies `R`. -/
def rowsOfIdSatisfy (cur : DirState) (did : Nat) (R : Device → Prop) : Prop :=
  ∀ d' ∈ cur.devices, d'.id = did → R d'

/-! ## Lookup helpers for stating properties -/

def findDeviceById (st : DirState) (i : Nat) : Option Device :=
  st.devices.find? fun d => d.id == i

def findHistoryById (st : DirState) (i : Nat) : Option HistoryEntry :=
  st.history.find? fun h => h.id == i

/-! ## History invariant and reachable states -/

/-- At most one `device_assignments_history` row per device has
`is_current = true`. -/
def atMostOneCurrent (st : DirState) : Prop :=
  ∀ did : Nat,
    (st.history.filter fun h => h.device_id == did && h.is_current).length ≤ 1

def devIdsNodup (st : DirState) : Prop := (st.devices.map fun d => d.id).Nodup

def devIdsFresh (st : DirState) : Prop := ∀ d ∈ st.devices, d.id < st.nextDevId

def histIdsNodup (st : DirState) : Prop := (st.history.map fun h => h.id).Nodup

def histIdsFresh (st : DirState) : Prop := ∀ h ∈ st.history, h.id < st.nextHistId

/-- Every current history row points at an existing device currently assigned
to that very employee.  This is the inductive strengthening that makes
`atMostOneCurrent` go through the sync operations. -/
def currentMatchesDevice (st : DirState) : Prop :=
  ∀ h ∈ st.history, h.is_current = true →
    ∃ d ∈ st.devices, d.id = h.device_id ∧ d.employee_id = some h.employee_id

/-- No device row carries an empty-string directory external id or
employee id (both come from database uuids / directory object ids; the
routes' JS truthiness checks would treat empty strings as absent). -/
def noEmptyExternalIds (st : DirState) : Prop :=
  ∀ d ∈ st.devices, d.azure_device_id ≠ some "" ∧ d.employee_id ≠ some ""

def SyncInvariant (st : DirState) : Prop :=
  devIdsNodup st ∧ devIdsFresh st ∧ histIdsNodup st ∧ histIdsFresh st ∧
    noEmptyExternalIds st ∧ atMostOneCurrent st ∧ currentMatchesDevice st

/-- States reachable from an empty store by running the modelled sync
operations: the directory sync's per-device upsert, its unregistration pass
and per-device conflict resolution (whose folds give the full loops), and
the device sync's per-device upsert.  Directory object ids and employee row
ids fed into the operations are non-empty strings (uuids). -/
inductive ReachableState : DirState → Prop where
  | init : ReachableState DirState.empty
  | entraUpsert (st : DirState) (obs : AzureDeviceObs) (now : Nat) :
      obs.id ≠ "" → ReachableState st → ReachableState (entraUpsertDevice st obs now)
  | unregister (st : DirState) (observed : List String) (now : Nat) :
      ReachableState st → ReachableState (entraUnregisterPass st observed now)
  | reconcile (st : DirState) (aid : String) (rels : List DeviceUserRel)
      (now syncId : Nat) :
      (∀ r ∈ rels, r.employee_id ≠ "") →
      ReachableState st → ReachableState (reconcileDevice st aid rels now syncId)
  | ninjaUpsert (st : DirState) (obs : NinjaObs) (now : Nat) :
      ReachableState st → ReachableState (ninjaUpsertDevice st obs now)

/-! ## Concrete fixtures for counterexamples and witnesses -/

/-- A NinjaOne-only record carrying an assignment (no `azure_device_id`). -/
def c2NinjaOnlyDevice : Device :=
  { id := 1, ninja_device_id := some "7", azure_device_id := none
    employee_id := some "EMP", device_name := some "x", serial_number := none
    is_in_ninja := true, status := "active", last_synced_at := 0 }

/-- An unlinked Azure record with the same hardware serial and no
assignment. -/
def c2AzureDevice : Device :=
  { id := 2, ninja_device_id := none, azure_device_id := some "AZ"
    employee_id := none, device_name := some "atl-S1234"
    serial_number := some "S1234", is_in_ninja := false, status := "active"
    last_synced_at := 0 }

def c2State : DirState :=
  { devices := [c2NinjaOnlyDevice, c2AzureDevice], history := []
    nextDevId := 3, nextHistId := 0 }

def c2Obs : NinjaObs :=
  { id := "7", systemName := some "x", dnsName := none
    serialNumber := some "S1234", biosSerialNumber := none }

/-- A device already linked to a different NinjaOne device id. -/
def c8Device : Device :=
  { id := 1, ninja_device_id := some "99", azure_device_id := none
    employee_id := none, device_name := some "abc", serial_number := none
    is_in_ninja := true, status := "active", last_synced_at := 0 }

def c8State : DirState :=
  { devices := [c8Device], history := [], nextDevId := 2, nextHistId := 0 }

def c8Obs : NinjaObs :=
  { id := "1", systemName := some "abc", dnsName := none
    serialNumber := none, biosSerialNumber := none }

/-- A directory-synced device assigned to employee A with one current history
row, used to instantiate the reconciliation theorems. -/
def c3Device : Device :=
  { id := 1, ninja_device_id := none, azure_device_id := some "D"
    employee_id := some "A", device_name := some "atl-X1", serial_number := some "X1"
    is_in_ninja := false, status := "active", last_synced_at := 0 }

def c3HistoryA : HistoryEntry :=
  { id := 0, device_id := 1, employee_id := "A", azure_device_id := some "D"
    registered_date := 1, assignment_date := 1, unassignment_date := none
    is_current := true, sync_id := 0 }

def c3State : DirState :=
  { devices := [c3Device], history := [c3HistoryA], nextDevId := 2, nextHistId := 1 }

def c3Rels : List DeviceUserRel :=
  [{ employee_id := "A", registered_date := 1 }, { employee_id := "B", registered_date := 2 }]

/-- The row `c3Device` becomes once the resolver assigns the winner B. -/
def c3WinnerRow : Device := { c3Device with employee_id := some "B" }

/-- A NinjaOne observation that serial-matches `c3Device`. -/
def c2WitnessObs : NinjaObs :=
  { id := "5", systemName := some "z9", dnsName := none
    serialNumber := some "X1", biosSerialNumber := none }

/-- The row `c3Device` becomes after the `c2WitnessObs` upsert. -/
def c2WitnessRow : Device :=
  { id := 1, ninja_device_id := some "5", azure_device_id := some "D"
    employee_id := some "A", device_name := some "z9", serial_number := some "X1"
    is_in_ninja := true, status := "active", last_synced_at := 3 }

/-- The row `c3Device` becomes after being unregistered. -/
def c4ClearedRow : Device := { c3Device with employee_id := none }

/-- A NinjaOne observation whose external id matches `c8Device`. -/
def c8WitnessObs : NinjaObs :=
  { id := "99", systemName := some "abc", dnsName := none
    serialNumber := none, biosSerialNumber := none }

/-! # Theorems -/

/-! ## Split/join lemmas for serial extraction -/

theorem jsSplit_ne_nil (sep : Char) (l : List Char) : jsSplit sep l ≠ [] := by
  induction l with
  | nil => simp [jsSplit]
  | cons c cs ih =>
    by_cases h : c = sep
    · simp [jsSplit, h]
    · cases hr : jsSplit sep cs with
      | nil => exact absurd hr ih
      | cons p ps => simp [jsSplit, h, hr]

theorem joinSep_jsSplit (sep : Char) (l : List Char) :
    joinSep sep (jsSplit sep l) = l := by
  induction l with
  | nil => rfl
  | cons c cs ih =>
    by_cases h : c = sep
    · cases hr : jsSplit sep cs with
      | nil => exact absurd hr (jsSplit_ne_nil sep cs)
      | cons p ps =>
        subst h
        rw [hr] at ih
        simp [jsSplit, hr, joinSep, ih]
    · cases hr : jsSplit sep cs with
      | nil => exact absurd hr (jsSplit_ne_nil sep cs)
      | cons p ps =>
        rw [hr] at ih
        cases ps with
        | nil => simp [jsSplit, h, hr, joinSep] at ih ⊢; simp [ih]
        | cons q qs => simp [jsSplit, h, hr, joinSep] at ih ⊢; simp [ih]

theorem two_le_jsSplit_length_iff (sep : Char) (l : List Char) :
    2 ≤ (jsSplit sep l).length ↔ sep ∈ l := by
  induction l with
  | nil => simp [jsSplit]
  | cons c cs ih =>
    by_cases h : c = sep
    · have h1 : 1 ≤ (jsSplit sep cs).length :=
        List.length_pos.mpr (jsSplit_ne_nil sep cs)
      have hlen : (jsSplit sep (c :: cs)).length = (jsSplit sep cs).length + 1 := by
        simp [jsSplit, h]
      constructor
      · intro _
        exact List.mem_cons.mpr (Or.inl h.symm)
      · intro _
        omega
    · cases hr : jsSplit sep cs with
      | nil => exact absurd hr (jsSplit_ne_nil sep cs)
      | cons p ps =>
        rw [hr] at ih
        simp [jsSplit, h, hr] at ih ⊢
        rw [← ih]
        constructor
        · intro hx
          exact Or.inr hx
        · intro hx
          rcases hx with hx | hx
          · exact absurd hx.symm h
          · exact hx

theorem jsSplit_drop_one_join (sep : Char) (l : List Char) (h : sep ∈ l) :
    joinSep sep ((jsSplit sep l).drop 1) =
      (l.dropWhile fun c => c != sep).drop 1 := by
  induction l with
  | nil => simp at h
  | cons c cs ih =>
    by_cases hc : c = sep
    · cases hr : jsSplit sep cs with
      | nil => exact absurd hr (jsSplit_ne_nil sep cs)
      | cons p ps =>
        have hj := joinSep_jsSplit sep cs
        rw [hr] at hj
        have hne : (c != sep) = false := by simp [hc]
        simp [jsSplit, hc, hr, List.dropWhile_cons, hne, hj]
    · have hcs : sep ∈ cs := by
        cases h with
        | head => exact absurd rfl hc
        | tail _ hx => exact hx
      cases hr : jsSplit sep cs with
      | nil => exact absurd hr (jsSplit_ne_nil sep cs)
      | cons p ps =>
        have hih := ih hcs
        rw [hr] at hih
        simp only [List.drop_one, List.tail_cons] at hih
        have hne : (c != sep) = true := by simp [hc]
        simp [jsSplit, hc, hr, List.dropWhile_cons, hne]
        simpa using hih

/-- C9.  Serial extraction splits the device display name on the first
hyphen and returns everything after it, uppercased and trimmed; it returns
`none` for an empty or hyphen-free name; concretely
`extractSerialNumber "atl-HKXRGK2" = some "HKXRGK2"` and
`extractSerialNumber "nohyphen" = none`. -/
theorem extractSerial_spec :
    (∀ s : String, extractSerialNumber s = specExtractSerial s)
    ∧ extractSerialNumber "atl-HKXRGK2" = some "HKXRGK2"
    ∧ extractSerialNumber "nohyphen" = none := by
  refine ⟨?_, by decide, by decide⟩
  intro s
  by_cases hs : s = ""
  · simp [extractSerialNumber, specExtractSerial, hs]
  · by_cases hm : '-' ∈ s.toList
    · have hlen := (two_le_jsSplit_length_iff '-' s.toList).mpr hm
      have hjoin := jsSplit_drop_one_join '-' s.toList hm
      have hcond : ¬ (s = "" ∨ ¬ '-' ∈ s.toList) := by
        intro hx
        rcases hx with hx | hx
        · exact hs hx
        · exact hx hm
      simp only [extractSerialNumber, specExtractSerial, afterFirstHyphen]
      rw [if_neg hs, if_pos hlen, if_neg hcond, hjoin]
    · have hlen : ¬ 2 ≤ (jsSplit '-' s.toList).length := by
        rw [two_le_jsSplit_length_iff]
        exact hm
      simp only [extractSerialNumber, specExtractSerial]
      rw [if_neg hs, if_neg hlen, if_pos (Or.inr hm)]

/-! ## C6: unified status computation -/

/-- C6.  The unified sync's final status is `failed` exactly when there were
stage errors and zero total records synced; `partial` exactly when there
were stage errors with a nonzero synced total, or no stage errors but a
nonzero failed total; `success` exactly when there were no stage errors and
no failed records. -/
theorem unified_status_characterization (r : UnifiedResults) :
    (computeOverallStatus r = "failed" ↔ hasErrors r = true ∧ totalSynced r = 0)
    ∧ (computeOverallStatus r = "partial" ↔
        ((hasErrors r = true ∧ totalSynced r ≠ 0) ∨
          (hasErrors r = false ∧ totalFailed r ≠ 0)))
    ∧ (computeOverallStatus r = "success" ↔
        hasErrors r = false ∧ totalFailed r = 0) := by
  have hfp : ("failed" : String) ≠ "partial" := by decide
  have hfs : ("failed" : String) ≠ "success" := by decide
  have hps : ("partial" : String) ≠ "success" := by decide
  unfold computeOverallStatus
  by_cases hE : hasErrors r = true <;>
    by_cases hS : totalSynced r = 0 <;>
      by_cases hF : totalFailed r = 0 <;>
        simp [hE, hS, hF, Nat.pos_iff_ne_zero, hfp, hfs, hps, hfp.symm, hfs.symm,
          hps.symm, Bool.not_eq_true] at *

/-! ## C10: cron-secret check -/

/-- C10 counterexample.  A request carrying an empty `Authorization` header
differs from `'Bearer ' + secret` yet is not rejected: JS truthiness lets
the empty string through the `authHeader &&` guard. -/
theorem cron_auth_empty_header_not_rejected :
    cronAuthRejected (some "") "topsecret" = false ∧
      ("" : String) ≠ bearerToken "topsecret" := by
  exact ⟨rfl, by decide⟩

/-- C10 amended.  A request is rejected with 401 exactly when it carries a
non-empty `Authorization` header whose value differs from
`'Bearer ' + SYNC_CRON_SECRET`; in particular a request with no header (and
also one with an empty header) always proceeds. -/
theorem cron_auth_rejection_characterization (h : Option String) (s : String) :
    (cronAuthRejected h s = true ↔ ∃ a, h = some a ∧ a ≠ "" ∧ a ≠ bearerToken s)
    ∧ cronAuthRejected none s = false := by
  refine ⟨?_, rfl⟩
  cases h with
  | none => simp [cronAuthRejected]
  | some a => simp [cronAuthRejected]

/-! ## C7: Sync Run creation and closing -/

/-- C7 counterexample.  No Sync Run is created in the `running` state: all
three routes insert their `sync_logs` row with the placeholder status
`success` (and a null `completed_at`). -/
theorem sync_log_not_created_running :
    (createdSyncLog "all" 0).status = "success"
    ∧ (createdSyncLog "all" 0).status ≠ "running"
    ∧ (createdSyncLog "entra_id" 0).status = "success"
    ∧ (createdSyncLog "ninjaone" 0).status = "success" := by
  exact ⟨rfl, by decide, rfl, rfl⟩

/-- C7 amended.  Every Sync Run record (unified, entra_id, ninjaone) is
created with placeholder status `success` and a null `completed_at` (being
in progress is encoded by the null completion timestamp, not by a `running`
status), and the terminal update that closes it stamps `completed_at` with
a terminal status among success/partial/failed. -/
theorem sync_log_lifecycle (t : String) (now : Nat) :
    ((createdSyncLog t now).status = "success"
      ∧ (createdSyncLog t now).completed_at = none)
    ∧ (∀ row rs rf errs n d,
        (finalizeSourceSyncLog row rs rf errs n d).completed_at = some n
        ∧ ((finalizeSourceSyncLog row rs rf errs n d).status = "partial"
            ∨ (finalizeSourceSyncLog row rs rf errs n d).status = "success"))
    ∧ (∀ row rs rf m n d,
        (failSourceSyncLog row rs rf m n d).completed_at = some n
        ∧ (failSourceSyncLog row rs rf m n d).status = "failed") := by
  refine ⟨⟨rfl, rfl⟩, ?_, ?_⟩
  · intro row rs rf errs n d
    refine ⟨rfl, ?_⟩
    unfold finalizeSourceSyncLog
    by_cases hf : rf > 0 <;> simp [hf]
  · intro row rs rf m n d
    exact ⟨rfl, rfl⟩

/-! ## C1: the orchestrator always finalizes its Sync Run -/

/-- C1.  Whatever the two stages' outcomes and even when the final status
update itself throws, the orchestrator's closure writes a non-null
`completed_at` to the sync_logs row it created; and when either sync stage
throws (including the Azure verification throw), the status written is
`failed`. -/
theorem unified_sync_always_finalizes (az nj : StageOutcome) (fu : Bool)
    (log : SyncLogRow) (now dur : Nat) :
    (unifiedSyncBody az nj fu log now dur).completed_at = some now
    ∧ (∀ m, az = StageOutcome.thrown m →
        (unifiedSyncBody az nj fu log now dur).status = "failed")
    ∧ (∀ a m, az = StageOutcome.ok a → nj = StageOutcome.thrown m →
        (unifiedSyncBody az nj fu log now dur).status = "failed") := by
  refine ⟨?_, ?_, ?_⟩
  · cases az with
    | thrown m => rfl
    | ok a =>
      cases nj with
      | thrown m =>
        simp only [unifiedSyncBody]
        split_ifs <;> rfl
      | ok n =>
        simp only [unifiedSyncBody]
        split_ifs <;> rfl
  · intro m hm
    subst hm
    rfl
  · intro a m ha hn
    subst ha; subst hn
    simp only [unifiedSyncBody]
    split_ifs <;> rfl

/-- C1 witness: concrete instantiation with the Azure stage throwing. -/
theorem unified_sync_always_finalizes_witness :
    (unifiedSyncBody (StageOutcome.thrown "boom") (StageOutcome.ok emptyStage) false
        (createdSyncLog "all" 0) 5 7).completed_at = some 5
    ∧ (unifiedSyncBody (StageOutcome.thrown "boom") (StageOutcome.ok emptyStage) false
        (createdSyncLog "all" 0) 5 7).status = "failed" :=
  ⟨(unified_sync_always_finalizes (StageOutcome.thrown "boom") (StageOutcome.ok emptyStage)
      false (createdSyncLog "all" 0) 5 7).1,
   (unified_sync_always_finalizes (StageOutcome.thrown "boom") (StageOutcome.ok emptyStage)
      false (createdSyncLog "all" 0) 5 7).2.1 "boom" rfl⟩

/-! ## Membership helpers for query and sort primitives -/

theorem exactlyOne_eq_some {α : Type} {p : α → Bool} {l : List α} {x : α}
    (h : exactlyOne p l = some x) : x ∈ l ∧ p x = true := by
  have hx : x ∈ l.filter p := by
    unfold exactlyOne at h
    split at h
    · rename_i a ha
      injection h with h'
      rw [ha, ← h']
      exact List.mem_singleton_self a
    · exact Option.noConfusion h
  exact List.mem_filter.mp hx

theorem mem_of_head? {α : Type} {l : List α} {x : α} (h : l.head? = some x) : x ∈ l := by
  cases l with
  | nil => exact Option.noConfusion h
  | cons a as =>
    injection h with h'
    rw [← h']
    exact List.mem_cons_self a as

theorem mem_insertByNameAsc {x y : Device} {l : List Device} :
    y ∈ insertByNameAsc x l ↔ y = x ∨ y ∈ l := by
  induction l with
  | nil => simp [insertByNameAsc]
  | cons a as ih =>
    unfold insertByNameAsc
    by_cases h : devNameLe x a ∧ ¬ devNameLe a x
    · simp only [if_pos h, List.mem_cons]
    · simp only [if_neg h, List.mem_cons, ih]
      tauto

theorem mem_sortDevicesByNameAsc {l : List Device} {y : Device} :
    y ∈ sortDevicesByNameAsc l ↔ y ∈ l := by
  unfold sortDevicesByNameAsc
  induction l with
  | nil => simp
  | cons a as ih =>
    simp only [List.foldr_cons, mem_insertByNameAsc, ih, List.mem_cons]

theorem mem_insertBySyncedDesc {x y : Device} {l : List Device} :
    y ∈ insertBySyncedDesc x l ↔ y = x ∨ y ∈ l := by
  induction l with
  | nil => simp [insertBySyncedDesc]
  | cons a as ih =>
    unfold insertBySyncedDesc
    by_cases h : a.last_synced_at < x.last_synced_at
    · simp only [if_pos h, List.mem_cons]
    · simp only [if_neg h, List.mem_cons, ih]
      tauto

theorem mem_sortBySyncedDesc {l : List Device} {y : Device} :
    y ∈ sortBySyncedDesc l ↔ y ∈ l := by
  unfold sortBySyncedDesc
  induction l with
  | nil => simp
  | cons a as ih =>
    simp only [List.foldr_cons, mem_insertBySyncedDesc, ih, List.mem_cons]

theorem ninjaResolveInitial_mem {st : DirState} {obs : NinjaObs} {d : Device}
    (h : ninjaResolveInitial st obs = some d) : d ∈ st.devices := by
  unfold ninjaResolveInitial at h
  cases h1 : ninjaFindByNinjaId st obs.id with
  | some x =>
    rw [h1] at h
    injection h with h'
    subst h'
    have h1' := h1
    unfold ninjaFindByNinjaId at h1'
    exact (exactlyOne_eq_some h1').1
  | none =>
    rw [h1] at h
    cases h2 : ninjaFindBySerialStrict st (ninjaRawSerial obs) with
    | some x =>
      rw [h2] at h
      injection h with h'
      subst h'
      unfold ninjaFindBySerialStrict at h2
      by_cases hr : ninjaRawSerial obs = ""
      · rw [if_pos hr] at h2
        exact Option.noConfusion h2
      · rw [if_neg hr] at h2
        have hm := mem_of_head? h2
        unfold ninjaSerialMatchQuery at hm
        exact (List.mem_filter.mp hm).1
    | none =>
      rw [h2] at h
      by_cases hk : ninjaDeviceNameKey obs = ""
      · rw [if_pos hk] at h
        exact Option.noConfusion h
      · rw [if_neg hk] at h
        cases h3 : ninjaFindByNameExact st (ninjaDeviceNameKey obs) with
        | some x =>
          rw [h3] at h
          injection h with h'
          subst h'
          have h3' := h3
          unfold ninjaFindByNameExact at h3'
          exact (exactlyOne_eq_some h3').1
        | none =>
          rw [h3] at h
          unfold ninjaFuzzyNameScan at h
          exact List.mem_of_find?_eq_some h

theorem mem_updateDeviceRow {st : DirState} {t : Nat} {f : Device → Device} {d' : Device}
    (h : d' ∈ (updateDeviceRow st t f).devices) :
    ∃ d, d ∈ st.devices ∧ d' = if d.id = t then f d else d := by
  unfold updateDeviceRow at h
  simp only [List.mem_map] at h
  obtain ⟨d, hd, hval⟩ := h
  exact ⟨d, hd, hval.symm⟩

theorem device_id_inj {st : DirState} (hN : devIdsNodup st) {a b : Device}
    (ha : a ∈ st.devices) (hb : b ∈ st.devices) (hid : a.id = b.id) : a = b := by
  unfold devIdsNodup at hN
  exact List.inj_on_of_nodup_map hN ha hb hid

theorem ninjaMergeCandidates_mem {st : DirState} {obsId : String} {az : Device}
    (h : az ∈ ninjaMergeCandidates st obsId) :
    az ∈ st.devices ∧ az.azure_device_id ≠ none := by
  unfold ninjaMergeCandidates at h
  rw [mem_sortDevicesByNameAsc] at h
  have h2 := List.mem_filter.mp h
  refine ⟨h2.1, ?_⟩
  have hp := h2.2
  simp only [Bool.and_eq_true, bne_iff_ne, ne_eq] at hp
  exact hp.1

theorem ninjaBestSerialMatch_mem {st : DirState} {obsId raw : String} {bm : Device}
    (h : ninjaBestSerialMatch st obsId raw = some bm) : bm ∈ st.devices := by
  unfold ninjaBestSerialMatch at h
  by_cases h2 : 2 ≤ (ninjaInsertPathSerialQuery st obsId (jsTrim (jsToUpper raw))).length
  · rw [if_pos h2] at h
    have hm := mem_of_head? h
    rw [mem_sortBySyncedDesc] at hm
    unfold ninjaInsertPathSerialQuery at hm
    exact (List.mem_filter.mp hm).1
  · rw [if_neg h2] at h
    have hm := mem_of_head? h
    unfold ninjaInsertPathSerialQuery at hm
    exact (List.mem_filter.mp hm).1

theorem truthyField_some {v : Option String} {a : String} (hv : v = some a) (ha : a ≠ "") :
    truthyField v = some a := by
  subst hv
  simp [truthyField, ha]

theorem truthyField_ne_empty (v : Option String) : truthyField v ≠ some "" := by
  cases v with
  | none => exact Option.noConfusion
  | some s =>
    have hred : truthyField (some s) = if s = "" then none else some s := rfl
    rw [hred]
    by_cases hs : s = ""
    · rw [if_pos hs]
      exact Option.noConfusion
    · rw [if_neg hs]
      intro hc
      injection hc with hc'
      exact hs hc'

theorem truthyField_eq_some {v : Option String} {a : String}
    (h : truthyField v = some a) : a ≠ "" ∧ v = some a := by
  cases v with
  | none => exact Option.noConfusion h
  | some s =>
    have hred : truthyField (some s) = if s = "" then none else some s := rfl
    rw [hred] at h
    by_cases hs : s = ""
    · rw [if_pos hs] at h
      exact Option.noConfusion h
    · rw [if_neg hs] at h
      injection h with h'
      subst h'
      exact ⟨hs, rfl⟩

/-- The NinjaOne payloads never carry an empty-string `employee_id` or
`azure_device_id`: those fields pass through JS truthiness guards. -/
theorem ninjaBuildDeviceData_noEmpty (ex : Option Device) (obs : NinjaObs) (now : Nat) :
    (ninjaBuildDeviceData ex obs now).employee_id ≠ some ""
    ∧ (ninjaBuildDeviceData ex obs now).azure_device_id ≠ some "" := by
  cases ex with
  | none => exact ⟨Option.noConfusion, Option.noConfusion⟩
  | some e => exact ⟨truthyField_ne_empty e.employee_id, truthyField_ne_empty e.azure_device_id⟩

theorem ninjaMergeDD_noEmpty (dd0 : NinjaDeviceData) (az : Device)
    (h : dd0.employee_id ≠ some "" ∧ dd0.azure_device_id ≠ some "") :
    (ninjaMergeDD dd0 az).employee_id ≠ some ""
    ∧ (ninjaMergeDD dd0 az).azure_device_id ≠ some "" := by
  unfold ninjaMergeDD
  cases ha : truthyField az.azure_device_id with
  | none => exact h
  | some a =>
    refine ⟨?_, ?_⟩
    · cases hemp : truthyField az.employee_id with
      | none => exact h.1
      | some emp =>
        intro hc
        injection hc with hc'
        exact (truthyField_eq_some hemp).1 hc'
    · intro hc
      injection hc with hc'
      exact (truthyField_eq_some ha).1 hc'

theorem ninjaBestMatchDD_noEmpty (dd0 : NinjaDeviceData) (bm : Device)
    (h : dd0.employee_id ≠ some "" ∧ dd0.azure_device_id ≠ some "") :
    (ninjaBestMatchDD dd0 bm).employee_id ≠ some ""
    ∧ (ninjaBestMatchDD dd0 bm).azure_device_id ≠ some "" := by
  unfold ninjaBestMatchDD
  refine ⟨?_, ?_⟩
  · cases hemp : truthyField bm.employee_id with
    | none => exact h.1
    | some emp =>
      intro hc
      injection hc with hc'
      exact (truthyField_eq_some hemp).1 hc'
  · cases ha : truthyField bm.azure_device_id with
    | none => exact h.2
    | some a =>
      intro hc
      injection hc with hc'
      exact (truthyField_eq_some ha).1 hc'

/-- Case analysis of the NinjaOne per-device upsert: it is either an update
of a row that was already in the store through a payload that preserves any
truthy assignment that row carried, or the insert of a fresh row with no
assignment.  The hypothesis rules out empty-string external directory ids
(which JS truthiness would treat as absent). -/
theorem ninjaUpsertDevice_branches (st : DirState) (obs : NinjaObs) (now : Nat)
    (hAz : ∀ x ∈ st.devices, x.azure_device_id ≠ some "") :
    (∃ st0 tgt dd, ninjaUpsertDevice st obs now =
        updateDeviceRow st0 tgt.id (applyNinjaDeviceData dd)
      ∧ tgt ∈ st.devices
      ∧ (∀ y, y ∈ st0.devices → y ∈ st.devices)
      ∧ (∀ e : String, tgt.employee_id = some e → e ≠ "" → dd.employee_id = some e)
      ∧ (st0 = st ∨ ∃ delId, st0 = deleteDeviceCascade st delId)
      ∧ dd.employee_id ≠ some "" ∧ dd.azure_device_id ≠ some "")
    ∨ (∃ dd : NinjaDeviceData,
        ninjaUpsertDevice st obs now = insertNinjaDevice st dd ∧ dd.employee_id = none
          ∧ dd.azure_device_id = none) := by
  cases hE : ninjaResolveInitial st obs with
  | some e0 =>
    have he0 : e0 ∈ st.devices := ninjaResolveInitial_mem hE
    by_cases hG : truthyField e0.azure_device_id = none ∧ ninjaRawSerial obs ≠ ""
    · cases hM : (ninjaMergeCandidates st obs.id).find?
          (ninjaMergeScanMatch (jsStripNonAlnum (jsToLower (ninjaRawSerial obs)))) with
      | some az =>
        have hmem := List.mem_of_find?_eq_some hM
        obtain ⟨hazSt, hazNe⟩ := ninjaMergeCandidates_mem hmem
        left
        refine ⟨deleteDeviceCascade st e0.id, az,
          ninjaMergeDD (ninjaBuildDeviceData (some e0) obs now) az, ?_, hazSt, ?_, ?_,
          Or.inr ⟨e0.id, rfl⟩,
          ninjaMergeDD_noEmpty (ninjaBuildDeviceData (some e0) obs now) az
            (ninjaBuildDeviceData_noEmpty (some e0) obs now)⟩
        · simp only [ninjaUpsertDevice, hE]
          rw [if_pos hG]
          simp only [ninjaMergeStep, hM]
        · intro y hy
          unfold deleteDeviceCascade at hy
          exact List.mem_of_mem_filter hy
        · intro e he hne
          obtain ⟨a, haz⟩ := Option.ne_none_iff_exists'.mp hazNe
          have hane : a ≠ "" := by
            intro hc
            rw [hc] at haz
            exact (hAz az hazSt) haz
          unfold ninjaMergeDD
          rw [truthyField_some haz hane, truthyField_some he hne]
      | none =>
        left
        refine ⟨st, e0, ninjaBuildDeviceData (some e0) obs now, ?_, he0,
          fun y hy => hy, ?_, Or.inl rfl, ninjaBuildDeviceData_noEmpty (some e0) obs now⟩
        · simp only [ninjaUpsertDevice, hE]
          rw [if_pos hG]
          simp only [ninjaMergeStep, hM]
        · intro e he hne
          exact truthyField_some he hne
    · left
      refine ⟨st, e0, ninjaBuildDeviceData (some e0) obs now, ?_, he0,
        fun y hy => hy, ?_, Or.inl rfl, ninjaBuildDeviceData_noEmpty (some e0) obs now⟩
      · simp only [ninjaUpsertDevice, hE]
        rw [if_neg hG]
      · intro e he hne
        exact truthyField_some he hne
  | none =>
    by_cases hR : ninjaRawSerial obs = ""
    · right
      refine ⟨ninjaBuildDeviceData none obs now, ?_, rfl, rfl⟩
      simp only [ninjaUpsertDevice, hE, ninjaInsertPathStep]
      rw [if_pos hR]
    · cases hB : ninjaBestSerialMatch st obs.id (ninjaRawSerial obs) with
      | some bm =>
        by_cases hskip : (bm.ninja_device_id != none && bm.ninja_device_id != some obs.id) = true
        · right
          refine ⟨ninjaBuildDeviceData none obs now, ?_, rfl, rfl⟩
          simp only [ninjaUpsertDevice, hE, ninjaInsertPathStep]
          rw [if_neg hR, hB]
          simp only [if_pos hskip]
        · left
          refine ⟨st, bm, ninjaBestMatchDD (ninjaBuildDeviceData none obs now) bm, ?_,
            ninjaBestSerialMatch_mem hB, fun y hy => hy, ?_, Or.inl rfl,
            ninjaBestMatchDD_noEmpty (ninjaBuildDeviceData none obs now) bm
              (ninjaBuildDeviceData_noEmpty none obs now)⟩
          · simp only [ninjaUpsertDevice, hE, ninjaInsertPathStep]
            rw [if_neg hR, hB]
            simp only [if_neg hskip]
          · intro e he hne
            unfold ninjaBestMatchDD
            rw [truthyField_some he hne]
      | none =>
        right
        refine ⟨ninjaBuildDeviceData none obs now, ?_, rfl, rfl⟩
        simp only [ninjaUpsertDevice, hE, ninjaInsertPathStep]
        rw [if_neg hR, hB]

/-! ## C2: Device sync and `employee_id` -/

/-- C2 counterexample.  Starting from a store with a NinjaOne-only record
(id 1, assigned to employee EMP, no azure_device_id) and an unassigned
Azure record (id 2) with the same hardware serial, one NinjaOne upsert
deletes row 1 and writes EMP into row 2's `employee_id`: the sync set
`employee_id` on a device, and the value written differs from the one
already present on the resolved (surviving) record, which was null. -/
theorem ninja_merge_writes_stale_employee :
    (c2State.devices.map fun d => (d.id, d.employee_id)) =
      [(1, some "EMP"), (2, (none : Option String))]
    ∧ ((ninjaUpsertDevice c2State c2Obs 1).devices.map fun d => (d.id, d.employee_id)) =
      [(2, some "EMP")] := by
  exact ⟨rfl, by decide⟩

/-- C2 amended.  The NinjaOne sync never overwrites or clears a non-null
(and non-empty) `employee_id` on any surviving device row, and every row it
freshly inserts has a null `employee_id`; but in the merge path it can copy
the deleted NinjaOne-only record's `employee_id` onto a serial-matched
Azure record whose `employee_id` was null (the counterexample), so the
written value need not equal the resolved record's.  Hypotheses: distinct
row ids, a fresh id counter, and no empty-string `azure_device_id`. -/
theorem ninja_sync_preserves_assigned_employee (st : DirState) (obs : NinjaObs) (now : Nat)
    (hN : devIdsNodup st)
    (hF : ∀ x ∈ st.devices, x.id ≠ st.nextDevId)
    (hAz : ∀ x ∈ st.devices, x.azure_device_id ≠ some "") :
    (∀ d ∈ st.devices, ∀ e : String, d.employee_id = some e → e ≠ "" →
      ∀ d' ∈ (ninjaUpsertDevice st obs now).devices, d'.id = d.id → d'.employee_id = some e)
    ∧ (∀ d' ∈ (ninjaUpsertDevice st obs now).devices, d'.id = st.nextDevId →
        d'.employee_id = none) := by
  rcases ninjaUpsertDevice_branches st obs now hAz with
    ⟨st0, tgt, dd, hEq, htgt, hsub, hP, hst0, hEe, hAe⟩ | ⟨dd, hEq, hddE, hddA⟩
  · constructor
    · intro d hd e he hne d' hd' hid
      rw [hEq] at hd'
      obtain ⟨d0, hd0, hval⟩ := mem_updateDeviceRow hd'
      have hd0St : d0 ∈ st.devices := hsub d0 hd0
      by_cases hc : d0.id = tgt.id
      · rw [if_pos hc] at hval
        have hid' : d'.id = d0.id := by rw [hval]; rfl
        have hd0d : d0 = d := device_id_inj hN hd0St hd (hid'.symm.trans hid)
        have htgtd : tgt = d := device_id_inj hN htgt hd (by rw [← hc, hd0d])
        have hdd := hP e (by rw [htgtd]; exact he) hne
        rw [hval, hd0d]
        simp [applyNinjaDeviceData, hdd]
      · rw [if_neg hc] at hval
        have hd0d : d0 = d := device_id_inj hN hd0St hd (by rw [← hval]; exact hid)
        rw [hval, hd0d]
        exact he
    · intro d' hd' hid
      rw [hEq] at hd'
      obtain ⟨d0, hd0, hval⟩ := mem_updateDeviceRow hd'
      have hd0St : d0 ∈ st.devices := hsub d0 hd0
      have hid' : d'.id = d0.id := by
        by_cases hc : d0.id = tgt.id
        · rw [if_pos hc] at hval
          rw [hval]
          rfl
        · rw [if_neg hc] at hval
          rw [hval]
      exact absurd (hid'.symm.trans hid) (hF d0 hd0St)
  · constructor
    · intro d hd e he hne d' hd' hid
      rw [hEq] at hd'
      unfold insertNinjaDevice at hd'
      simp only [List.mem_append, List.mem_singleton] at hd'
      rcases hd' with hd' | hd'
      · rw [device_id_inj hN hd' hd hid]
        exact he
      · have hnew : d'.id = st.nextDevId := by rw [hd']
        exact absurd (hid.symm.trans hnew) (hF d hd)
    · intro d' hd' hid
      rw [hEq] at hd'
      unfold insertNinjaDevice at hd'
      simp only [List.mem_append, List.mem_singleton] at hd'
      rcases hd' with hd' | hd'
      · exact absurd hid (hF d' hd')
      · rw [hd']
        exact hddE

/-- C2 witness: a directory-assigned device (serial-matched by the device
sync) keeps its assignment through the upsert. -/
theorem ninja_sync_preserves_assigned_employee_witness :
    c2WitnessRow.employee_id = some "A" :=
  (ninja_sync_preserves_assigned_employee c3State c2WitnessObs 3
      (by unfold devIdsNodup; decide) (by decide) (by decide)).1
    c3Device (by decide) "A" rfl (by decide) c2WitnessRow (by decide) (by decide)

/-! ## C8: name-match ordering and candidate filtering -/

/-- C8 counterexample.  In the Device (NinjaOne) sync, the name match is
reached only after the external-id and serial matches fail, but it is run
against all devices: here it resolves the observation (ninja id 1, name
abc) to a stored device whose `ninja_device_id` is already 99. -/
theorem ninja_name_match_ignores_ninja_id_filter :
    ninjaFindByNinjaId c8State c8Obs.id = none
    ∧ ninjaFindBySerialStrict c8State (ninjaRawSerial c8Obs) = none
    ∧ ninjaResolveInitial c8State c8Obs = some c8Device
    ∧ c8Device.ninja_device_id = some "99"
    ∧ c8Obs.id = "1" := by
  refine ⟨by decide, by decide, by decide, rfl, rfl⟩

/-- C8 amended.  For both sources the name match runs only after the
external-id match and the serial match have failed, and the Directory
sync's name match considers only devices with a null `azure_device_id`;
the serial stage of the Device sync also only returns devices with a null
`ninja_device_id` — but the Device sync's name match (exact and fuzzy)
scans all devices, including ones already bound to a different
`ninja_device_id` (see the counterexample). -/
theorem matcher_name_stage_ordering :
    (∀ st obs d, entraFindByAzureId st obs.id = some d → entraResolve st obs = some d)
    ∧ (∀ st obs d, entraFindByAzureId st obs.id = none → entraSerialStage st obs = some d →
        entraResolve st obs = some d)
    ∧ (∀ st obs d, entraFindByAzureId st obs.id = none → entraSerialStage st obs = none →
        entraResolve st obs = some d → d.azure_device_id = none)
    ∧ (∀ st obs d, ninjaFindByNinjaId st obs.id = some d → ninjaResolveInitial st obs = some d)
    ∧ (∀ st obs d, ninjaFindByNinjaId st obs.id = none →
        ninjaFindBySerialStrict st (ninjaRawSerial obs) = some d →
        ninjaResolveInitial st obs = some d)
    ∧ (∀ st raw d, ninjaFindBySerialStrict st raw = some d → d.ninja_device_id = none) := by
  refine ⟨?_, ?_, ?_, ?_, ?_, ?_⟩
  · intro st obs d h
    simp only [entraResolve, h]
  · intro st obs d h1 h2
    simp only [entraResolve, h1, h2]
  · intro st obs d h1 h2 h3
    simp only [entraResolve, h1, h2] at h3
    unfold entraNameStage at h3
    cases hdn : obs.displayName with
    | none =>
      simp only [hdn] at h3
      exact Option.noConfusion h3
    | some dn =>
      simp only [hdn] at h3
      by_cases hz : dn = ""
      · rw [if_pos hz] at h3
        exact Option.noConfusion h3
      · rw [if_neg hz] at h3
        have h3' := h3
        unfold entraFindByName at h3'
        have hp := (exactlyOne_eq_some h3').2
        simp only [Bool.and_eq_true, beq_iff_eq] at hp
        exact hp.2
  · intro st obs d h
    simp only [ninjaResolveInitial, h]
  · intro st obs d h1 h2
    simp only [ninjaResolveInitial, h1, h2]
  · intro st raw d h
    unfold ninjaFindBySerialStrict at h
    by_cases hr : raw = ""
    · rw [if_pos hr] at h
      exact Option.noConfusion h
    · rw [if_neg hr] at h
      have hm := mem_of_head? h
      unfold ninjaSerialMatchQuery at hm
      have hp := (List.mem_filter.mp hm).2
      simp only [Bool.and_eq_true, beq_iff_eq] at hp
      exact hp.1.2

/-- C8 witness: the external-id stage wins on a concrete store. -/
theorem matcher_name_stage_ordering_witness :
    ninjaResolveInitial c8State c8WitnessObs = some c8Device :=
  matcher_name_stage_ordering.2.2.2.1 c8State c8WitnessObs c8Device (by decide)

/-! ## Sorting lemmas for the conflict resolver -/

theorem mem_insertRelDesc {x y : DeviceUserRel} {l : List DeviceUserRel} :
    y ∈ insertRelDesc x l ↔ y = x ∨ y ∈ l := by
  induction l with
  | nil => simp [insertRelDesc]
  | cons a as ih =>
    unfold insertRelDesc
    by_cases h : a.registered_date < x.registered_date
    · simp only [if_pos h, List.mem_cons]
    · simp only [if_neg h, List.mem_cons, ih]
      tauto

theorem mem_sortRelsDesc {l : List DeviceUserRel} {y : DeviceUserRel} :
    y ∈ sortRelsDesc l ↔ y ∈ l := by
  unfold sortRelsDesc
  induction l with
  | nil => simp
  | cons a as ih =>
    simp only [List.foldr_cons, mem_insertRelDesc, ih, List.mem_cons]

theorem insertRelDesc_pairwise {x : DeviceUserRel} {l : List DeviceUserRel}
    (h : l.Pairwise fun a b => b.registered_date ≤ a.registered_date) :
    (insertRelDesc x l).Pairwise fun a b => b.registered_date ≤ a.registered_date := by
  induction l with
  | nil => simp [insertRelDesc]
  | cons y ys ih =>
    rw [List.pairwise_cons] at h
    obtain ⟨hy, hys⟩ := h
    unfold insertRelDesc
    by_cases hc : y.registered_date < x.registered_date
    · rw [if_pos hc]
      refine List.Pairwise.cons ?_ (List.Pairwise.cons hy hys)
      intro b hb
      rcases List.mem_cons.mp hb with rfl | hb
      · exact Nat.le_of_lt hc
      · exact le_trans (hy b hb) (Nat.le_of_lt hc)
    · rw [if_neg hc]
      refine List.Pairwise.cons ?_ (ih hys)
      intro b hb
      rcases mem_insertRelDesc.mp hb with rfl | hb
      · exact Nat.le_of_not_lt hc
      · exact hy b hb

theorem sortRelsDesc_pairwise (l : List DeviceUserRel) :
    (sortRelsDesc l).Pairwise fun a b => b.registered_date ≤ a.registered_date := by
  unfold sortRelsDesc
  induction l with
  | nil => simp
  | cons a as ih => exact insertRelDesc_pairwise ih

theorem sortRelsDesc_head_max {l : List DeviceUserRel} {w : DeviceUserRel}
    {rest : List DeviceUserRel} (h : sortRelsDesc l = w :: rest) :
    w ∈ l ∧ ∀ r ∈ l, r.registered_date ≤ w.registered_date := by
  constructor
  · exact mem_sortRelsDesc.mp (h ▸ List.mem_cons_self w rest)
  · intro r hr
    have hmem : r ∈ sortRelsDesc l := mem_sortRelsDesc.mpr hr
    rw [h] at hmem
    rcases List.mem_cons.mp hmem with rfl | hmem
    · exact le_refl _
    · have hp := sortRelsDesc_pairwise l
      rw [h, List.pairwise_cons] at hp
      exact hp.1 r hmem

/-! ## Frame lemmas for the directory reconciliation steps -/

theorem closeCurrentHistory_devices (st : DirState) (did : Nat) (e : String) (now : Nat) :
    (closeCurrentHistory st did e now).devices = st.devices := rfl

theorem closeCurrentHistory_nextHistId (st : DirState) (did : Nat) (e : String) (now : Nat) :
    (closeCurrentHistory st did e now).nextHistId = st.nextHistId := rfl

theorem setDeviceEmployee_history (st : DirState) (did : Nat) (emp : Option String) :
    (setDeviceEmployee st did emp).history = st.history := rfl

theorem setDeviceEmployee_nextHistId (st : DirState) (did : Nat) (emp : Option String) :
    (setDeviceEmployee st did emp).nextHistId = st.nextHistId := rfl

theorem reconcileClose_devices (st : DirState) (d : Device) (w : DeviceUserRel) (now : Nat) :
    (reconcileClose st d w now).devices = st.devices := by
  cases hd : d.employee_id with
  | none => simp only [reconcileClose, hd]
  | some p =>
    simp only [reconcileClose, hd]
    by_cases h : p ≠ w.employee_id
    · rw [if_pos h]
      rfl
    · rw [if_neg h]

theorem reconcileClose_nextHistId (st : DirState) (d : Device) (w : DeviceUserRel) (now : Nat) :
    (reconcileClose st d w now).nextHistId = st.nextHistId := by
  cases hd : d.employee_id with
  | none => simp only [reconcileClose, hd]
  | some p =>
    simp only [reconcileClose, hd]
    by_cases h : p ≠ w.employee_id
    · rw [if_pos h]
      rfl
    · rw [if_neg h]

theorem reconcileEnsureCurrent_devices (st : DirState) (did : Nat) (w : DeviceUserRel)
    (aid : String) (now syncId : Nat) :
    (reconcileEnsureCurrent st did w aid now syncId).devices = st.devices := by
  unfold reconcileEnsureCurrent
  cases findCurrentHistoryFor st did w.employee_id <;> rfl

theorem reconcileEnsureCurrent_nextHistId_ge (st : DirState) (did : Nat) (w : DeviceUserRel)
    (aid : String) (now syncId : Nat) :
    st.nextHistId ≤ (reconcileEnsureCurrent st did w aid now syncId).nextHistId := by
  unfold reconcileEnsureCurrent
  cases findCurrentHistoryFor st did w.employee_id with
  | none => exact Nat.le_succ _
  | some h => exact le_refl _

theorem recordLoserHistory_devices (did : Nat) (aid : String) (now syncId : Nat) :
    ∀ (rels : List DeviceUserRel) (st : DirState),
      (recordLoserHistory st did aid now syncId rels).devices = st.devices := by
  intro rels
  induction rels with
  | nil => intro st; rfl
  | cons r rs ih =>
    intro st
    have step : recordLoserHistory st did aid now syncId (r :: rs) =
        recordLoserHistory
          (match findAnyHistoryFor st did r.employee_id with
           | some _ => st
           | none =>
             insertHistory st did r.employee_id aid r.registered_date now false syncId)
          did aid now syncId rs := rfl
    rw [step, ih]
    cases findAnyHistoryFor st did r.employee_id <;> rfl

theorem recordLoserHistory_mem (did : Nat) (aid : String) (now syncId : Nat) :
    ∀ (rels : List DeviceUserRel) (st : DirState) (h : HistoryEntry),
      h ∈ st.history → h ∈ (recordLoserHistory st did aid now syncId rels).history := by
  intro rels
  induction rels with
  | nil => intro st h hm; exact hm
  | cons r rs ih =>
    intro st h hm
    have step : recordLoserHistory st did aid now syncId (r :: rs) =
        recordLoserHistory
          (match findAnyHistoryFor st did r.employee_id with
           | some _ => st
           | none =>
             insertHistory st did r.employee_id aid r.registered_date now false syncId)
          did aid now syncId rs := rfl
    rw [step]
    cases findAnyHistoryFor st did r.employee_id with
    | some x => exact ih _ h hm
    | none =>
      refine ih _ h ?_
      unfold insertHistory
      exact List.mem_append_left _ hm

theorem recordLoserHistory_shape (did : Nat) (aid : String) (now syncId : Nat) :
    ∀ (rels : List DeviceUserRel) (st : DirState) (h' : HistoryEntry),
      h' ∈ (recordLoserHistory st did aid now syncId rels).history →
        h' ∈ st.history ∨ st.nextHistId ≤ h'.id := by
  intro rels
  induction rels with
  | nil => intro st h' hm; exact Or.inl hm
  | cons r rs ih =>
    intro st h' hm
    have step : recordLoserHistory st did aid now syncId (r :: rs) =
        recordLoserHistory
          (match findAnyHistoryFor st did r.employee_id with
           | some _ => st
           | none =>
             insertHistory st did r.employee_id aid r.registered_date now false syncId)
          did aid now syncId rs := rfl
    rw [step] at hm
    cases hfa : findAnyHistoryFor st did r.employee_id with
    | some x =>
      rw [hfa] at hm
      exact ih st h' hm
    | none =>
      rw [hfa] at hm
      rcases ih _ h' hm with hin | hge
      · unfold insertHistory at hin
        rcases List.mem_append.mp hin with hin | hin
        · exact Or.inl hin
        · right
          rw [List.mem_singleton.mp hin]
      · right
        have : st.nextHistId ≤ st.nextHistId + 1 := Nat.le_succ _
        exact le_trans this hge

theorem hist_id_inj {st : DirState} (hH : histIdsNodup st) {a b : HistoryEntry}
    (ha : a ∈ st.history) (hb : b ∈ st.history) (hid : a.id = b.id) : a = b := by
  unfold histIdsNodup at hH
  exact List.inj_on_of_nodup_map hH ha hb hid

/-! ## C3: conflict resolution assigns the latest-registered winner -/

/-- C3.  When the conflict resolver processes a device observed under one or
more employees: the winner it picks is an observed candidate with maximal
`registered_date` (head of the descending sort); the device's `employee_id`
is set to the winner; if the device previously belonged to a different
employee, every current history row for that (device, previous employee)
pair is stamped closed; and a current history row for (device, winner)
exists afterwards. -/
theorem reconcile_latest_registration_wins
    (st : DirState) (aid : String) (rels : List DeviceUserRel) (now syncId : Nat)
    (d : Device) (w : DeviceUserRel) (rest : List DeviceUserRel)
    (hH : histIdsNodup st) (hFr : histIdsFresh st)
    (hlookup : exactlyOne (fun x => x.azure_device_id == some aid) st.devices = some d)
    (hsort : sortRelsDesc rels = w :: rest) :
    (w ∈ rels ∧ ∀ r ∈ rels, r.registered_date ≤ w.registered_date)
    ∧ (∀ d' ∈ (reconcileDevice st aid rels now syncId).devices,
        d'.id = d.id → d'.employee_id = some w.employee_id)
    ∧ (∀ p, d.employee_id = some p → p ≠ w.employee_id →
        ∀ h ∈ st.history, h.device_id = d.id → h.employee_id = p → h.is_current = true →
          ∀ h' ∈ (reconcileDevice st aid rels now syncId).history, h'.id = h.id →
            h'.is_current = false ∧ h'.unassignment_date = some now)
    ∧ (∃ h ∈ (reconcileDevice st aid rels now syncId).history,
        h.device_id = d.id ∧ h.employee_id = w.employee_id ∧ h.is_current = true) := by
  have hfinal : reconcileDevice st aid rels now syncId =
      recordLoserHistory
        (reconcileEnsureCurrent
          (setDeviceEmployee (reconcileClose st d w now) d.id (some w.employee_id))
          d.id w aid now syncId)
        d.id aid now syncId rest := by
    simp only [reconcileDevice, hlookup, hsort]
  refine ⟨sortRelsDesc_head_max hsort, ?_, ?_, ?_⟩
  · -- (b) device row carries the winner
    intro d' hd' hid
    rw [hfinal] at hd'
    rw [recordLoserHistory_devices, reconcileEnsureCurrent_devices] at hd'
    unfold setDeviceEmployee updateDeviceRow at hd'
    simp only [reconcileClose_devices, List.mem_map] at hd'
    obtain ⟨d0, _, hval⟩ := hd'
    by_cases hc : d0.id = d.id
    · rw [if_pos hc] at hval
      rw [← hval]
    · rw [if_neg hc] at hval
      rw [← hval] at hid
      exact absurd hid hc
  · -- (c) previous employee's current entries are closed
    intro p hp hpw h hh hdev hemp hcur h' hh' hid
    have hstC : reconcileClose st d w now = closeCurrentHistory st d.id p now := by
      simp only [reconcileClose, hp]
      rw [if_pos hpw]
    rw [hfinal] at hh'
    -- peel recordLoserHistory
    have hnextS : st.nextHistId =
        (setDeviceEmployee (reconcileClose st d w now) d.id (some w.employee_id)).nextHistId := by
      rw [setDeviceEmployee_nextHistId, reconcileClose_nextHistId]
    have hfresh : h.id < st.nextHistId := hFr h hh
    rcases recordLoserHistory_shape _ _ _ _ _ _ _ hh' with hin | hge
    · -- h' comes from the ensure-current stage
      have hnextE := reconcileEnsureCurrent_nextHistId_ge
        (setDeviceEmployee (reconcileClose st d w now) d.id (some w.employee_id))
        d.id w aid now syncId
      -- analyze the ensure-current stage
      unfold reconcileEnsureCurrent at hin
      cases hfc : findCurrentHistoryFor
          (setDeviceEmployee (reconcileClose st d w now) d.id (some w.employee_id))
          d.id w.employee_id with
      | some hc =>
        rw [hfc] at hin
        unfold setHistoryRegisteredDate at hin
        simp only [setDeviceEmployee_history, List.mem_map] at hin
        obtain ⟨h0, hh0, hval⟩ := hin
        rw [hstC] at hh0
        unfold closeCurrentHistory at hh0
        simp only [List.mem_map] at hh0
        obtain ⟨h1, hh1, hval1⟩ := hh0
        have hid0 : h'.id = h0.id := by
          rw [← hval]
          by_cases hz : h0.id = hc.id
          · rw [if_pos hz]
          · rw [if_neg hz]
        have hid1 : h0.id = h1.id := by
          rw [← hval1]
          by_cases hz : h1.device_id = d.id ∧ h1.employee_id = p ∧ h1.is_current = true
          · rw [if_pos hz]
          · rw [if_neg hz]
        have hh1h : h1 = h :=
          hist_id_inj hH hh1 hh (hid1.symm.trans (hid0.symm.trans hid))
        have hcond : h1.device_id = d.id ∧ h1.employee_id = p ∧ h1.is_current = true := by
          rw [hh1h]
          exact ⟨hdev, hemp, hcur⟩
        rw [if_pos hcond] at hval1
        constructor
        · rw [← hval]
          by_cases hz : h0.id = hc.id
          · rw [if_pos hz]
            rw [← hval1]
          · rw [if_neg hz]
            rw [← hval1]
        · rw [← hval]
          by_cases hz : h0.id = hc.id
          · rw [if_pos hz]
            rw [← hval1]
          · rw [if_neg hz]
            rw [← hval1]
      | none =>
        rw [hfc] at hin
        unfold insertHistory at hin
        simp only [setDeviceEmployee_history, List.mem_append, List.mem_singleton] at hin
        rcases hin with hin | hin
        · rw [hstC] at hin
          unfold closeCurrentHistory at hin
          simp only [List.mem_map] at hin
          obtain ⟨h1, hh1, hval1⟩ := hin
          have hid1 : h'.id = h1.id := by
            rw [← hval1]
            by_cases hz : h1.device_id = d.id ∧ h1.employee_id = p ∧ h1.is_current = true
            · rw [if_pos hz]
            · rw [if_neg hz]
          have hh1h : h1 = h := hist_id_inj hH hh1 hh (hid1.symm.trans hid)
          have hcond : h1.device_id = d.id ∧ h1.employee_id = p ∧ h1.is_current = true := by
            rw [hh1h]
            exact ⟨hdev, hemp, hcur⟩
          rw [if_pos hcond] at hval1
          rw [← hval1]
          exact ⟨rfl, rfl⟩
        · -- the inserted current row cannot have h's id: it is fresh
          exfalso
          have : h'.id =
              (setDeviceEmployee (reconcileClose st d w now) d.id
                (some w.employee_id)).nextHistId := by
            rw [hin]
          rw [← hnextS] at this
          rw [hid] at this
          omega
    · -- fresh ids are larger than h.id
      exfalso
      have hge2 : st.nextHistId ≤ h'.id := by
        have := reconcileEnsureCurrent_nextHistId_ge
          (setDeviceEmployee (reconcileClose st d w now) d.id (some w.employee_id))
          d.id w aid now syncId
        rw [← hnextS] at this
        exact le_trans this hge
      rw [hid] at hge2
      omega
  · -- (d) a current entry for the winner exists
    rw [hfinal]
    cases hfc : findCurrentHistoryFor
        (setDeviceEmployee (reconcileClose st d w now) d.id (some w.employee_id))
        d.id w.employee_id with
    | some hc =>
      have hfc' := hfc
      unfold findCurrentHistoryFor at hfc'
      obtain ⟨hcmem, hcpred⟩ := exactlyOne_eq_some hfc'
      simp only [Bool.and_eq_true, beq_iff_eq] at hcpred
      refine ⟨{ hc with registered_date := w.registered_date }, ?_, hcpred.1.1, hcpred.1.2, ?_⟩
      · apply recordLoserHistory_mem
        unfold reconcileEnsureCurrent
        rw [hfc]
        unfold setHistoryRegisteredDate
        have : ({ hc with registered_date := w.registered_date } : HistoryEntry) =
            (fun h0 => if h0.id = hc.id then { h0 with registered_date := w.registered_date }
              else h0) hc := by
          simp
        rw [this]
        exact List.mem_map_of_mem _ hcmem
      · exact hcpred.2
    | none =>
      refine ⟨
        { id := (setDeviceEmployee (reconcileClose st d w now) d.id
            (some w.employee_id)).nextHistId
          device_id := d.id
          employee_id := w.employee_id
          azure_device_id := some aid
          registered_date := w.registered_date
          assignment_date := now
          unassignment_date := none
          is_current := true
          sync_id := syncId }, ?_, rfl, rfl, rfl⟩
      apply recordLoserHistory_mem
      unfold reconcileEnsureCurrent
      rw [hfc]
      unfold insertHistory
      exact List.mem_append_right _ (List.mem_singleton_self _)

/-- C3 witness: device D observed for A (registered 1) and B (registered 2)
ends assigned to B. -/
theorem reconcile_latest_registration_wins_witness :
    c3WinnerRow.employee_id = some "B" :=
  (reconcile_latest_registration_wins c3State "D" c3Rels 5 9 c3Device
      { employee_id := "B", registered_date := 2 }
      [{ employee_id := "A", registered_date := 1 }]
      (by unfold histIdsNodup; decide) (by unfold histIdsFresh; decide) (by decide)
      (by decide)).2.1
    c3WinnerRow (by decide) (by decide)

/-! ## Step lemmas for unregistration and the conflict loop -/

theorem unregisterOne_history (cur : DirState) (i : Nat) (e' : String) (now : Nat) :
    (unregisterOne cur i e' now).history = cur.history.map fun h =>
      if h.device_id = i ∧ h.employee_id = e' ∧ h.is_current then
        { h with is_current := false, unassignment_date := some now }
      else h := rfl

theorem unregisterOne_devices (cur : DirState) (i : Nat) (e' : String) (now : Nat) :
    (unregisterOne cur i e' now).devices = cur.devices.map fun d0 =>
      if d0.id = i then { d0 with employee_id := none } else d0 := rfl

theorem unregisterOne_nextHistId (cur : DirState) (i : Nat) (e' : String) (now : Nat) :
    (unregisterOne cur i e' now).nextHistId = cur.nextHistId := rfl

theorem recordLoserHistory_nextHistId_ge (did : Nat) (aid : String) (now syncId : Nat) :
    ∀ (rels : List DeviceUserRel) (st : DirState),
      st.nextHistId ≤ (recordLoserHistory st did aid now syncId rels).nextHistId := by
  intro rels
  induction rels with
  | nil => intro st; exact le_refl _
  | cons r rs ih =>
    intro st
    have step : recordLoserHistory st did aid now syncId (r :: rs) =
        recordLoserHistory
          (match findAnyHistoryFor st did r.employee_id with
           | some _ => st
           | none =>
             insertHistory st did r.employee_id aid r.registered_date now false syncId)
          did aid now syncId rs := rfl
    rw [step]
    cases findAnyHistoryFor st did r.employee_id with
    | some x => exact ih st
    | none =>
      have h1 : st.nextHistId ≤
          (insertHistory st did r.employee_id aid r.registered_date now false syncId).nextHistId :=
        Nat.le_succ _
      exact le_trans h1 (ih _)

theorem reconcileClose_history_step (cur : DirState) (dr : Device) (w : DeviceUserRel)
    (now : Nat) :
    ∀ h0 ∈ (reconcileClose cur dr w now).history,
      ∃ h1 ∈ cur.history, h1.id = h0.id ∧
        ((h0.is_current = h1.is_current ∧ h0.unassignment_date = h1.unassignment_date)
          ∨ (h0.is_current = false ∧ h0.unassignment_date = some now)) := by
  intro h0 hh0
  cases hd : dr.employee_id with
  | none =>
    simp only [reconcileClose, hd] at hh0
    exact ⟨h0, hh0, rfl, Or.inl ⟨rfl, rfl⟩⟩
  | some p =>
    simp only [reconcileClose, hd] at hh0
    by_cases hp : p ≠ w.employee_id
    · rw [if_pos hp] at hh0
      unfold closeCurrentHistory at hh0
      simp only [List.mem_map] at hh0
      obtain ⟨h1, hh1, hval⟩ := hh0
      by_cases hc : h1.device_id = dr.id ∧ h1.employee_id = p ∧ h1.is_current = true
      · rw [if_pos hc] at hval
        exact ⟨h1, hh1, by rw [← hval], Or.inr (by rw [← hval]; exact ⟨rfl, rfl⟩)⟩
      · rw [if_neg hc] at hval
        exact ⟨h1, hh1, by rw [hval], Or.inl (by rw [← hval]; exact ⟨rfl, rfl⟩)⟩
    · rw [if_neg hp] at hh0
      exact ⟨h0, hh0, rfl, Or.inl ⟨rfl, rfl⟩⟩

theorem reconcileDevice_nextHistId_ge (cur : DirState) (aid : String)
    (rels : List DeviceUserRel) (now syncId : Nat) :
    cur.nextHistId ≤ (reconcileDevice cur aid rels now syncId).nextHistId := by
  cases hl : exactlyOne (fun x => x.azure_device_id == some aid) cur.devices with
  | none => simp only [reconcileDevice, hl]; exact le_refl _
  | some dr =>
    cases hs : sortRelsDesc rels with
    | nil => simp only [reconcileDevice, hl, hs]; exact le_refl _
    | cons w rest =>
      simp only [reconcileDevice, hl, hs]
      have h1 : cur.nextHistId =
          (setDeviceEmployee (reconcileClose cur dr w now) dr.id
            (some w.employee_id)).nextHistId := by
        rw [setDeviceEmployee_nextHistId, reconcileClose_nextHistId]
      rw [h1]
      exact le_trans (reconcileEnsureCurrent_nextHistId_ge _ _ _ _ _ _)
        (recordLoserHistory_nextHistId_ge _ _ _ _ _ _)

theorem reconcileDevice_devices_step (cur : DirState) (aid : String)
    (rels : List DeviceUserRel) (now syncId : Nat) :
    ∀ d' ∈ (reconcileDevice cur aid rels now syncId).devices,
      ∃ d0, d0 ∈ cur.devices ∧ d'.id = d0.id ∧ d'.azure_device_id = d0.azure_device_id ∧
        (d' = d0 ∨ ∃ dr, exactlyOne (fun x => x.azure_device_id == some aid) cur.devices = some dr
          ∧ d0.id = dr.id) := by
  intro d' hd'
  cases hl : exactlyOne (fun x => x.azure_device_id == some aid) cur.devices with
  | none =>
    simp only [reconcileDevice, hl] at hd'
    exact ⟨d', hd', rfl, rfl, Or.inl rfl⟩
  | some dr =>
    cases hs : sortRelsDesc rels with
    | nil =>
      simp only [reconcileDevice, hl, hs] at hd'
      exact ⟨d', hd', rfl, rfl, Or.inl rfl⟩
    | cons w rest =>
      simp only [reconcileDevice, hl, hs] at hd'
      rw [recordLoserHistory_devices, reconcileEnsureCurrent_devices] at hd'
      unfold setDeviceEmployee updateDeviceRow at hd'
      simp only [reconcileClose_devices, List.mem_map] at hd'
      obtain ⟨d0, hd0, hval⟩ := hd'
      by_cases hc : d0.id = dr.id
      · rw [if_pos hc] at hval
        exact ⟨d0, hd0, by rw [← hval], by rw [← hval], Or.inr ⟨dr, rfl, hc⟩⟩
      · rw [if_neg hc] at hval
        exact ⟨d0, hd0, by rw [← hval], by rw [← hval], Or.inl hval.symm⟩

theorem reconcileDevice_history_step (cur : DirState) (aid : String)
    (rels : List DeviceUserRel) (now syncId : Nat) :
    ∀ h' ∈ (reconcileDevice cur aid rels now syncId).history,
      (∃ h1 ∈ cur.history, h1.id = h'.id ∧
        ((h'.is_current = h1.is_current ∧ h'.unassignment_date = h1.unassignment_date)
          ∨ (h'.is_current = false ∧ h'.unassignment_date = some now)))
      ∨ cur.nextHistId ≤ h'.id := by
  intro h' hh'
  cases hl : exactlyOne (fun x => x.azure_device_id == some aid) cur.devices with
  | none =>
    simp only [reconcileDevice, hl] at hh'
    exact Or.inl ⟨h', hh', rfl, Or.inl ⟨rfl, rfl⟩⟩
  | some dr =>
    cases hs : sortRelsDesc rels with
    | nil =>
      simp only [reconcileDevice, hl, hs] at hh'
      exact Or.inl ⟨h', hh', rfl, Or.inl ⟨rfl, rfl⟩⟩
    | cons w rest =>
      simp only [reconcileDevice, hl, hs] at hh'
      have hnextS : cur.nextHistId =
          (setDeviceEmployee (reconcileClose cur dr w now) dr.id
            (some w.employee_id)).nextHistId := by
        rw [setDeviceEmployee_nextHistId, reconcileClose_nextHistId]
      rcases recordLoserHistory_shape _ _ _ _ _ _ _ hh' with hin | hge
      · unfold reconcileEnsureCurrent at hin
        cases hfc : findCurrentHistoryFor
            (setDeviceEmployee (reconcileClose cur dr w now) dr.id (some w.employee_id))
            dr.id w.employee_id with
        | some hc =>
          rw [hfc] at hin
          unfold setHistoryRegisteredDate at hin
          simp only [setDeviceEmployee_history, List.mem_map] at hin
          obtain ⟨h0, hh0, hval⟩ := hin
          obtain ⟨h1, hh1, hid1, hflds⟩ := reconcileClose_history_step cur dr w now h0 hh0
          left
          refine ⟨h1, hh1, ?_, ?_⟩
          · rw [hid1, ← hval]
            by_cases hz : h0.id = hc.id
            · rw [if_pos hz]
            · rw [if_neg hz]
          · have hcu : h'.is_current = h0.is_current ∧
                h'.unassignment_date = h0.unassignment_date := by
              rw [← hval]
              by_cases hz : h0.id = hc.id
              · rw [if_pos hz]
                exact ⟨rfl, rfl⟩
              · rw [if_neg hz]
                exact ⟨rfl, rfl⟩
            rcases hflds with hsame | hclosed
            · exact Or.inl ⟨hcu.1.trans hsame.1, hcu.2.trans hsame.2⟩
            · exact Or.inr ⟨hcu.1.trans hclosed.1, hcu.2.trans hclosed.2⟩
        | none =>
          rw [hfc] at hin
          unfold insertHistory at hin
          simp only [setDeviceEmployee_history, List.mem_append, List.mem_singleton] at hin
          rcases hin with hin | hin
          · obtain ⟨h1, hh1, hid1, hflds⟩ := reconcileClose_history_step cur dr w now h' hin
            exact Or.inl ⟨h1, hh1, hid1, hflds⟩
          · right
            have : h'.id = (setDeviceEmployee (reconcileClose cur dr w now) dr.id
                (some w.employee_id)).nextHistId := by rw [hin]
            rw [← hnextS] at this
            exact le_of_eq this.symm
      · right
        have hge2 := reconcileEnsureCurrent_nextHistId_ge
          (setDeviceEmployee (reconcileClose cur dr w now) dr.id (some w.employee_id))
          dr.id w aid now syncId
        rw [← hnextS] at hge2
        exact le_trans hge2 hge

/-! ## Fold lemmas for the unregistration pass -/

theorem unregisterFold_nextHistId (now : Nat) :
    ∀ (snap : List (Nat × String)) (cur : DirState),
      (unregisterFold now snap cur).nextHistId = cur.nextHistId := by
  intro snap
  induction snap with
  | nil => intro cur; rfl
  | cons pr rest ih =>
    intro cur
    have step : unregisterFold now (pr :: rest) cur =
        unregisterFold now rest (unregisterOne cur pr.1 pr.2 now) := rfl
    rw [step, ih, unregisterOne_nextHistId]

theorem unregisterFold_shape (base : DirState) (now : Nat) :
    ∀ (snap : List (Nat × String)) (cur : DirState),
      azureShapePreserved base cur →
      azureShapePreserved base (unregisterFold now snap cur) := by
  intro snap
  induction snap with
  | nil => intro cur h; exact h
  | cons pr rest ih =>
    intro cur h
    have step : unregisterFold now (pr :: rest) cur =
        unregisterFold now rest (unregisterOne cur pr.1 pr.2 now) := rfl
    rw [step]
    refine ih _ ?_
    intro y hy
    rw [unregisterOne_devices] at hy
    simp only [List.mem_map] at hy
    obtain ⟨d0, hd0, hval⟩ := hy
    obtain ⟨x, hx, hxi, hxa⟩ := h d0 hd0
    by_cases hc : d0.id = pr.1
    · rw [if_pos hc] at hval
      exact ⟨x, hx, by rw [← hval]; exact hxi, by rw [← hval]; exact hxa⟩
    · rw [if_neg hc] at hval
      exact ⟨x, hx, by rw [← hval]; exact hxi, by rw [← hval]; exact hxa⟩

theorem unregisterFold_rowsClosed (now hid : Nat) :
    ∀ (snap : List (Nat × String)) (cur : DirState),
      rowsClosedFor cur hid now →
      rowsClosedFor (unregisterFold now snap cur) hid now := by
  intro snap
  induction snap with
  | nil => intro cur h; exact h
  | cons pr rest ih =>
    intro cur h
    have step : unregisterFold now (pr :: rest) cur =
        unregisterFold now rest (unregisterOne cur pr.1 pr.2 now) := rfl
    rw [step]
    refine ih _ ?_
    intro h' hh' hidq
    rw [unregisterOne_history] at hh'
    simp only [List.mem_map] at hh'
    obtain ⟨h1, hh1, hval⟩ := hh'
    by_cases hc : h1.device_id = pr.1 ∧ h1.employee_id = pr.2 ∧ h1.is_current = true
    · rw [if_pos hc] at hval
      rw [← hval]
      exact ⟨rfl, rfl⟩
    · rw [if_neg hc] at hval
      rw [← hval]
      rw [← hval] at hidq
      exact h h1 hh1 hidq

theorem unregisterFold_rowsOfIdNone (now did : Nat) :
    ∀ (snap : List (Nat × String)) (cur : DirState),
      rowsOfIdSatisfy cur did (fun d' => d'.employee_id = none) →
      rowsOfIdSatisfy (unregisterFold now snap cur) did (fun d' => d'.employee_id = none) := by
  intro snap
  induction snap with
  | nil => intro cur h; exact h
  | cons pr rest ih =>
    intro cur h
    have step : unregisterFold now (pr :: rest) cur =
        unregisterFold now rest (unregisterOne cur pr.1 pr.2 now) := rfl
    rw [step]
    refine ih _ ?_
    intro d' hd' hidq
    rw [unregisterOne_devices] at hd'
    simp only [List.mem_map] at hd'
    obtain ⟨d0, hd0, hval⟩ := hd'
    by_cases hc : d0.id = pr.1
    · rw [if_pos hc] at hval
      rw [← hval]
    · rw [if_neg hc] at hval
      rw [← hval]
      rw [← hval] at hidq
      exact h d0 hd0 hidq

theorem unregisterFold_rowsOfId (now : Nat) (did : Nat) (R : Device → Prop) :
    ∀ (snap : List (Nat × String)) (cur : DirState),
      (∀ pr ∈ snap, pr.1 ≠ did) →
      rowsOfIdSatisfy cur did R →
      rowsOfIdSatisfy (unregisterFold now snap cur) did R := by
  intro snap
  induction snap with
  | nil => intro cur _ h; exact h
  | cons pr rest ih =>
    intro cur hids h
    have step : unregisterFold now (pr :: rest) cur =
        unregisterFold now rest (unregisterOne cur pr.1 pr.2 now) := rfl
    rw [step]
    refine ih _ (fun q hq => hids q (List.mem_cons_of_mem _ hq)) ?_
    intro d' hd' hidq
    rw [unregisterOne_devices] at hd'
    simp only [List.mem_map] at hd'
    obtain ⟨d0, hd0, hval⟩ := hd'
    by_cases hc : d0.id = pr.1
    · exfalso
      rw [if_pos hc] at hval
      have : d'.id = d0.id := by rw [← hval]
      exact hids pr (List.mem_cons_self _ _) (by rw [← hc, ← this, hidq])
    · rw [if_neg hc] at hval
      rw [← hval]
      rw [← hval] at hidq
      exact h d0 hd0 hidq

theorem unregisterFold_clears (now : Nat) (did : Nat) (e : String) :
    ∀ (snap : List (Nat × String)) (cur : DirState),
      (did, e) ∈ snap →
      rowsOfIdSatisfy (unregisterFold now snap cur) did (fun d' => d'.employee_id = none) := by
  intro snap
  induction snap with
  | nil => intro cur h; exact absurd h (List.not_mem_nil _)
  | cons pr rest ih =>
    intro cur hmem
    have step : unregisterFold now (pr :: rest) cur =
        unregisterFold now rest (unregisterOne cur pr.1 pr.2 now) := rfl
    rw [step]
    rcases List.mem_cons.mp hmem with heq | hmem'
    · refine unregisterFold_rowsOfIdNone now did rest _ ?_
      intro d' hd' hidq
      rw [unregisterOne_devices] at hd'
      simp only [List.mem_map] at hd'
      obtain ⟨d0, hd0, hval⟩ := hd'
      by_cases hc : d0.id = pr.1
      · rw [if_pos hc] at hval
        rw [← hval]
      · exfalso
        rw [if_neg hc] at hval
        rw [← hval] at hidq
        rw [← heq] at hc
        exact hc hidq
    · exact ih _ hmem'

theorem unregisterFold_closes (now : Nat) (did : Nat) (e : String) (hRow : HistoryEntry)
    (hdev : hRow.device_id = did) (hemp : hRow.employee_id = e)
    (hcur : hRow.is_current = true) :
    ∀ (snap : List (Nat × String)) (cur : DirState),
      (snap.map Prod.fst).Nodup →
      (did, e) ∈ snap →
      (∀ h' ∈ cur.history, h'.id = hRow.id → h' = hRow) →
      rowsClosedFor (unregisterFold now snap cur) hRow.id now := by
  intro snap
  induction snap with
  | nil => intro cur _ h _; exact absurd h (List.not_mem_nil _)
  | cons pr rest ih =>
    intro cur hnd hmem hpre
    rw [List.map_cons, List.nodup_cons] at hnd
    have step : unregisterFold now (pr :: rest) cur =
        unregisterFold now rest (unregisterOne cur pr.1 pr.2 now) := rfl
    rw [step]
    rcases List.mem_cons.mp hmem with heq | hmem'
    · refine unregisterFold_rowsClosed now hRow.id rest _ ?_
      intro h' hh' hidq
      rw [unregisterOne_history] at hh'
      simp only [List.mem_map] at hh'
      obtain ⟨h1, hh1, hval⟩ := hh'
      have hid1 : h'.id = h1.id := by
        rw [← hval]
        by_cases hc : h1.device_id = pr.1 ∧ h1.employee_id = pr.2 ∧ h1.is_current = true
        · rw [if_pos hc]
        · rw [if_neg hc]
      have hh1r : h1 = hRow := hpre h1 hh1 (hid1.symm.trans hidq)
      have hcond : h1.device_id = pr.1 ∧ h1.employee_id = pr.2 ∧ h1.is_current = true := by
        rw [hh1r, ← heq]
        exact ⟨hdev, hemp, hcur⟩
      rw [if_pos hcond] at hval
      rw [← hval]
      exact ⟨rfl, rfl⟩
    · have hne : pr.1 ≠ did := by
        intro hc
        exact hnd.1 (by rw [hc]; exact List.mem_map_of_mem Prod.fst hmem')
      refine ih _ hnd.2 hmem' ?_
      intro h' hh' hidq
      rw [unregisterOne_history] at hh'
      simp only [List.mem_map] at hh'
      obtain ⟨h1, hh1, hval⟩ := hh'
      have hid1 : h'.id = h1.id := by
        rw [← hval]
        by_cases hc : h1.device_id = pr.1 ∧ h1.employee_id = pr.2 ∧ h1.is_current = true
        · rw [if_pos hc]
        · rw [if_neg hc]
      have hh1r : h1 = hRow := hpre h1 hh1 (hid1.symm.trans hidq)
      have hcond : ¬ (h1.device_id = pr.1 ∧ h1.employee_id = pr.2 ∧ h1.is_current = true) := by
        intro hc
        rw [hh1r] at hc
        rw [hc.1] at hdev
        exact hne hdev
      rw [if_neg hcond] at hval
      rw [← hval]
      exact hh1r

/-! ## Fold lemmas for the conflict loop -/

theorem conflictLoop_nextHistId_ge (now syncId : Nat) :
    ∀ (obsList : List (String × List DeviceUserRel)) (cur : DirState),
      cur.nextHistId ≤ (conflictLoop cur obsList now syncId).nextHistId := by
  intro obsList
  induction obsList with
  | nil => intro cur; exact le_refl _
  | cons pr rest ih =>
    intro cur
    have step : conflictLoop cur (pr :: rest) now syncId =
        conflictLoop (reconcileDevice cur pr.1 pr.2 now syncId) rest now syncId := rfl
    rw [step]
    exact le_trans (reconcileDevice_nextHistId_ge cur pr.1 pr.2 now syncId) (ih _)

theorem conflictLoop_rowsClosed (base : DirState) (now syncId hid : Nat)
    (hfresh : hid < base.nextHistId) :
    ∀ (obsList : List (String × List DeviceUserRel)) (cur : DirState),
      base.nextHistId ≤ cur.nextHistId →
      rowsClosedFor cur hid now →
      rowsClosedFor (conflictLoop cur obsList now syncId) hid now := by
  intro obsList
  induction obsList with
  | nil => intro cur _ h; exact h
  | cons pr rest ih =>
    intro cur hnext h
    have step : conflictLoop cur (pr :: rest) now syncId =
        conflictLoop (reconcileDevice cur pr.1 pr.2 now syncId) rest now syncId := rfl
    rw [step]
    refine ih _ (le_trans hnext (reconcileDevice_nextHistId_ge cur pr.1 pr.2 now syncId)) ?_
    intro h' hh' hidq
    rcases reconcileDevice_history_step cur pr.1 pr.2 now syncId h' hh' with
      ⟨h1, hh1, hid1, hflds⟩ | hge
    · rcases hflds with hsame | hclosed
      · have := h h1 hh1 (hid1.trans hidq)
        exact ⟨hsame.1.trans this.1, hsame.2.trans this.2⟩
      · exact hclosed
    · exfalso
      rw [hidq] at hge
      omega

theorem conflictLoop_rowsOfId (base : DirState) (now syncId : Nat)
    (hN : devIdsNodup base) (d : Device) (hd : d ∈ base.devices) (R : Device → Prop) :
    ∀ (obsList : List (String × List DeviceUserRel)) (cur : DirState),
      (∀ pr ∈ obsList, d.azure_device_id ≠ some pr.1) →
      azureShapePreserved base cur →
      rowsOfIdSatisfy cur d.id R →
      rowsOfIdSatisfy (conflictLoop cur obsList now syncId) d.id R
      ∧ azureShapePreserved base (conflictLoop cur obsList now syncId) := by
  intro obsList
  induction obsList with
  | nil => intro cur _ hsh h; exact ⟨h, hsh⟩
  | cons pr rest ih =>
    intro cur hforbid hsh h
    have step : conflictLoop cur (pr :: rest) now syncId =
        conflictLoop (reconcileDevice cur pr.1 pr.2 now syncId) rest now syncId := rfl
    rw [step]
    have hsh' : azureShapePreserved base (reconcileDevice cur pr.1 pr.2 now syncId) := by
      intro y hy
      obtain ⟨d0, hd0, hidq, haz, _⟩ := reconcileDevice_devices_step cur pr.1 pr.2 now syncId y hy
      obtain ⟨x, hx, hxi, hxa⟩ := hsh d0 hd0
      exact ⟨x, hx, by rw [hxi, hidq], by rw [hxa, haz]⟩
    have h' : rowsOfIdSatisfy (reconcileDevice cur pr.1 pr.2 now syncId) d.id R := by
      intro d' hd' hidq
      obtain ⟨d0, hd0, hid0, _, hcase⟩ :=
        reconcileDevice_devices_step cur pr.1 pr.2 now syncId d' hd'
      rcases hcase with heq | ⟨dr, hdr, hdrid⟩
      · rw [heq]
        exact h d0 hd0 (hid0.symm.trans hidq)
      · exfalso
        have hdrmem : dr ∈ cur.devices ∧
            (fun x => x.azure_device_id == some pr.1) dr = true := exactlyOne_eq_some hdr
        obtain ⟨x, hx, hxi, hxa⟩ := hsh dr hdrmem.1
        have hdraz : dr.azure_device_id = some pr.1 := by
          have := hdrmem.2
          simp only [beq_iff_eq] at this
          exact this
        have hxid : x.id = d.id := by
          rw [hxi, ← hdrid, ← hid0, hidq]
        have hxd : x = d := device_id_inj hN hx hd hxid
        have hfinal : d.azure_device_id = some pr.1 := by
          rw [← hxd, hxa, hdraz]
        exact hforbid pr (List.mem_cons_self _ _) hfinal
    exact ih _ (fun q hq => hforbid q (List.mem_cons_of_mem _ hq)) hsh' h'

/-! ## Snapshot lemmas for the unregistration pass -/

theorem unregisterSnapshot_mem {st : DirState} {observed : List String} {d : Device}
    {a e : String} (hd : d ∈ st.devices) (ha : d.azure_device_id = some a) (ha' : a ≠ "")
    (he : d.employee_id = some e) (he' : e ≠ "") (hobs : a ∉ observed) :
    (d.id, e) ∈ unregisterSnapshot st observed := by
  unfold unregisterSnapshot
  rw [List.mem_filterMap]
  refine ⟨d, hd, ?_⟩
  have hguard : ¬ (a = "" ∨ e = "" ∨ a ∈ observed) := by
    intro hx
    rcases hx with hx | hx | hx
    · exact ha' hx
    · exact he' hx
    · exact hobs hx
  simp only [ha, he]
  rw [if_neg hguard]

theorem unregisterSnapshot_src {st : DirState} {observed : List String} {pr : Nat × String}
    (h : pr ∈ unregisterSnapshot st observed) :
    ∃ y ∈ st.devices, y.id = pr.1 ∧ ∃ ay, y.azure_device_id = some ay := by
  unfold unregisterSnapshot at h
  rw [List.mem_filterMap] at h
  obtain ⟨y, hy, hval⟩ := h
  cases haz : y.azure_device_id with
  | none =>
    exfalso
    simp only [haz] at hval
    exact Option.noConfusion hval
  | some a =>
    cases hemp : y.employee_id with
    | none =>
      exfalso
      simp only [haz, hemp] at hval
      exact Option.noConfusion hval
    | some e' =>
      simp only [haz, hemp] at hval
      by_cases hguard : a = "" ∨ e' = "" ∨ a ∈ observed
      · rw [if_pos hguard] at hval
        exact absurd hval (by simp)
      · rw [if_neg hguard] at hval
        injection hval with hpr
        exact ⟨y, hy, by rw [← hpr], ⟨a, haz⟩⟩

theorem filterMap_id_fst_nodup {β : Type} (f : Device → Option (Nat × β))
    (hf : ∀ d pr, f d = some pr → pr.1 = d.id) :
    ∀ l : List Device, (l.map fun d => d.id).Nodup →
      ((l.filterMap f).map Prod.fst).Nodup := by
  intro l
  induction l with
  | nil => intro _; simp
  | cons x xs ih =>
    intro hnd
    rw [List.map_cons, List.nodup_cons] at hnd
    rw [List.filterMap_cons]
    cases hfx : f x with
    | none => exact ih hnd.2
    | some pr =>
      rw [List.map_cons, List.nodup_cons]
      refine ⟨?_, ih hnd.2⟩
      intro hmem
      rw [List.mem_map] at hmem
      obtain ⟨q, hq, hq1⟩ := hmem
      rw [List.mem_filterMap] at hq
      obtain ⟨y, hy, hfy⟩ := hq
      have h1 : q.1 = y.id := hf y q hfy
      have h2 : pr.1 = x.id := hf x pr hfx
      have hxy : x.id = y.id := by rw [← h2, ← hq1, h1]
      have hmem2 : y.id ∈ xs.map fun d => d.id := List.mem_map_of_mem _ hy
      rw [← hxy] at hmem2
      exact hnd.1 hmem2

theorem unregisterSnapshot_ids_nodup (st : DirState) (observed : List String)
    (hN : devIdsNodup st) :
    ((unregisterSnapshot st observed).map Prod.fst).Nodup := by
  unfold unregisterSnapshot
  refine filterMap_id_fst_nodup _ ?_ st.devices hN
  intro d pr hpr
  cases haz : d.azure_device_id with
  | none =>
    exfalso
    simp only [haz] at hpr
    exact Option.noConfusion hpr
  | some a =>
    cases hemp : d.employee_id with
    | none =>
      exfalso
      simp only [haz, hemp] at hpr
      exact Option.noConfusion hpr
    | some e' =>
      simp only [haz, hemp] at hpr
      by_cases hguard : a = "" ∨ e' = "" ∨ a ∈ observed
      · rw [if_pos hguard] at hpr
        exact absurd hpr (by simp)
      · rw [if_neg hguard] at hpr
        injection hpr with h
        rw [← h]

/-! ## C4: unregistration after the reconciliation pass -/

/-- C4.  After the directory sync's reconciliation (unregistration pass
followed by the conflict loop): every device with a truthy directory
external id that was not observed in this run and that carried a truthy
assignment ends with `employee_id = null`, and each of its matching current
history rows (same device, that employee) is stamped closed with this run's
unassignment date; devices with no `azure_device_id` at all keep their row
untouched by the phase. -/
theorem entra_unregistration_clears_unobserved
    (st : DirState) (obs : List (String × List DeviceUserRel)) (now syncId : Nat)
    (hN : devIdsNodup st) (hH : histIdsNodup st) (hFr : histIdsFresh st)
    (d : Device) (hd : d ∈ st.devices) :
    (∀ a e, d.azure_device_id = some a → a ≠ "" → d.employee_id = some e → e ≠ "" →
      a ∉ obs.map Prod.fst →
      rowsOfIdSatisfy (entraReconciliationPhase st obs now syncId) d.id
        (fun d' => d'.employee_id = none)
      ∧ (∀ h ∈ st.history, h.device_id = d.id → h.employee_id = e → h.is_current = true →
          rowsClosedFor (entraReconciliationPhase st obs now syncId) h.id now))
    ∧ (d.azure_device_id = none →
        rowsOfIdSatisfy (entraReconciliationPhase st obs now syncId) d.id
          (fun d' => d' = d)) := by
  have hphase : entraReconciliationPhase st obs now syncId =
      conflictLoop (unregisterFold now (unregisterSnapshot st (obs.map Prod.fst)) st)
        obs now syncId := rfl
  constructor
  · intro a e ha ha' he he' hobs
    have hsnap : (d.id, e) ∈ unregisterSnapshot st (obs.map Prod.fst) :=
      unregisterSnapshot_mem hd ha ha' he he' hobs
    have hforbid : ∀ pr ∈ obs, d.azure_device_id ≠ some pr.1 := by
      intro pr hpr hca
      rw [ha] at hca
      injection hca with hca'
      exact hobs (hca' ▸ List.mem_map_of_mem Prod.fst hpr)
    have hempPass : rowsOfIdSatisfy
        (unregisterFold now (unregisterSnapshot st (obs.map Prod.fst)) st) d.id
        (fun d' => d'.employee_id = none) :=
      unregisterFold_clears now d.id e _ st hsnap
    have hshPass : azureShapePreserved st
        (unregisterFold now (unregisterSnapshot st (obs.map Prod.fst)) st) :=
      unregisterFold_shape st now _ st (fun y hy => ⟨y, hy, rfl, rfl⟩)
    have hloop := conflictLoop_rowsOfId st now syncId hN d hd
      (fun d' => d'.employee_id = none) obs _ hforbid hshPass hempPass
    constructor
    · rw [hphase]
      exact hloop.1
    · intro h hh hdev hemp hcur
      have hpre : ∀ h' ∈ st.history, h'.id = h.id → h' = h :=
        fun h' hh' hidq => hist_id_inj hH hh' hh hidq
      have hclosedPass : rowsClosedFor
          (unregisterFold now (unregisterSnapshot st (obs.map Prod.fst)) st) h.id now :=
        unregisterFold_closes now d.id e h hdev hemp hcur _ st
          (unregisterSnapshot_ids_nodup st _ hN) hsnap hpre
      have hnextPass : st.nextHistId ≤
          (unregisterFold now (unregisterSnapshot st (obs.map Prod.fst)) st).nextHistId := by
        rw [unregisterFold_nextHistId]
      rw [hphase]
      exact conflictLoop_rowsClosed st now syncId h.id (hFr h hh) obs _ hnextPass hclosedPass
  · intro ha
    have hids : ∀ pr ∈ unregisterSnapshot st (obs.map Prod.fst), pr.1 ≠ d.id := by
      intro pr hpr hc
      obtain ⟨y, hy, hyi, ay, hay⟩ := unregisterSnapshot_src hpr
      have hyd : y = d := device_id_inj hN hy hd (by rw [hyi, hc])
      rw [hyd, ha] at hay
      exact Option.noConfusion hay
    have hidd : rowsOfIdSatisfy st d.id (fun d' => d' = d) :=
      fun d' hd' hidq => device_id_inj hN hd' hd hidq
    have hpass : rowsOfIdSatisfy
        (unregisterFold now (unregisterSnapshot st (obs.map Prod.fst)) st) d.id
        (fun d' => d' = d) :=
      unregisterFold_rowsOfId now d.id _ _ st hids hidd
    have hshPass : azureShapePreserved st
        (unregisterFold now (unregisterSnapshot st (obs.map Prod.fst)) st) :=
      unregisterFold_shape st now _ st (fun y hy => ⟨y, hy, rfl, rfl⟩)
    have hforbid : ∀ pr ∈ obs, d.azure_device_id ≠ some pr.1 := by
      intro pr _ hc
      rw [ha] at hc
      exact Option.noConfusion hc
    rw [hphase]
    exact (conflictLoop_rowsOfId st now syncId hN d hd _ obs _ hforbid hshPass hpass).1

/-- C4 witness: a device absent from the observation set ends unassigned. -/
theorem entra_unregistration_witness :
    c4ClearedRow.employee_id = none :=
  ((entra_unregistration_clears_unobserved c3State [] 7 0
      (by unfold devIdsNodup; decide) (by unfold histIdsNodup; decide)
      (by unfold histIdsFresh; decide) c3Device (by decide)).1
    "D" "A" rfl (by decide) rfl (by decide) (by decide)).1
    c4ClearedRow (by decide) (by decide)

/-! ## Generic id / count lemmas for the history invariant -/

theorem ids_map_cond {α : Type} (idf : α → Nat) (l : List α) (p : α → Prop)
    [DecidablePred p] (f : α → α) (hf : ∀ x, idf (f x) = idf x) :
    (l.map fun x => if p x then f x else x).map idf = l.map idf := by
  rw [List.map_map]
  apply List.map_congr_left
  intro x _
  simp only [Function.comp_apply]
  by_cases hc : p x
  · rw [if_pos hc, hf]
  · rw [if_neg hc]

theorem exactlyOne_eq_none {α : Type} {p : α → Bool} {l : List α}
    (h : exactlyOne p l = none) :
    l.filter p = [] ∨ 2 ≤ (l.filter p).length := by
  unfold exactlyOne at h
  cases hf : l.filter p with
  | nil => exact Or.inl rfl
  | cons x xs =>
    cases xs with
    | nil =>
      rw [hf] at h
      exact Option.noConfusion h
    | cons y ys =>
      right
      simp only [List.length_cons]
      omega

theorem close_count_le (st : DirState) (did' : Nat) (e : String) (now did : Nat) :
    ((closeCurrentHistory st did' e now).history.filter
      fun h => h.device_id == did && h.is_current).length ≤
    (st.history.filter fun h => h.device_id == did && h.is_current).length := by
  unfold closeCurrentHistory
  rw [← List.countP_eq_length_filter, ← List.countP_eq_length_filter, List.countP_map]
  apply List.countP_mono_left
  intro h _ hp
  simp only [Function.comp_apply] at hp
  by_cases hc : h.device_id = did' ∧ h.employee_id = e ∧ h.is_current = true
  · rw [if_pos hc] at hp
    simp at hp
  · rw [if_neg hc] at hp
    exact hp

theorem close_count_zero (st : DirState) (did : Nat) (e : String) (now : Nat)
    (hall : ∀ h ∈ st.history, h.device_id = did → h.is_current = true →
      h.employee_id = e) :
    ((closeCurrentHistory st did e now).history.filter
      fun h => h.device_id == did && h.is_current).length = 0 := by
  unfold closeCurrentHistory
  rw [← List.countP_eq_length_filter, List.countP_map]
  apply List.countP_eq_zero.mpr
  intro h hmem
  simp only [Function.comp_apply]
  by_cases hc : h.device_id = did ∧ h.employee_id = e ∧ h.is_current = true
  · rw [if_pos hc]
    simp
  · rw [if_neg hc]
    intro hp
    rw [Bool.and_eq_true, beq_iff_eq] at hp
    exact hc ⟨hp.1, hall h hmem hp.1 hp.2, hp.2⟩

theorem setReg_count_eq (st : DirState) (hid reg did : Nat) :
    ((setHistoryRegisteredDate st hid reg).history.filter
      fun h => h.device_id == did && h.is_current).length =
    (st.history.filter fun h => h.device_id == did && h.is_current).length := by
  unfold setHistoryRegisteredDate
  rw [← List.countP_eq_length_filter, ← List.countP_eq_length_filter, List.countP_map]
  apply Nat.le_antisymm
  · apply List.countP_mono_left
    intro h _ hp
    simp only [Function.comp_apply] at hp
    by_cases hc : h.id = hid
    · rw [if_pos hc] at hp
      exact hp
    · rw [if_neg hc] at hp
      exact hp
  · apply List.countP_mono_left
    intro h _ hp
    simp only [Function.comp_apply]
    by_cases hc : h.id = hid
    · rw [if_pos hc]
      exact hp
    · rw [if_neg hc]
      exact hp

theorem insert_count (st : DirState) (did' : Nat) (e aid : String) (reg now : Nat)
    (isCur : Bool) (syncId : Nat) (did : Nat) :
    ((insertHistory st did' e aid reg now isCur syncId).history.filter
      fun h => h.device_id == did && h.is_current).length =
    (st.history.filter fun h => h.device_id == did && h.is_current).length +
      (if did' = did ∧ isCur = true then 1 else 0) := by
  unfold insertHistory
  rw [List.filter_append, List.length_append]
  congr 1
  by_cases hc : did' = did ∧ isCur = true
  · rw [if_pos hc]
    simp [List.filter, hc.1, hc.2]
  · rw [if_neg hc]
    have hfalse : ((did' : Nat) == did && isCur) = false := by
      cases hcur : isCur with
      | false => simp
      | true =>
        have h1 : did' ≠ did := fun hq => hc ⟨hq, hcur⟩
        simp [h1]
    simp [List.filter, hfalse]

theorem recordLoser_history_decomp (did : Nat) (aid : String) (now syncId : Nat) :
    ∀ (rels : List DeviceUserRel) (st : DirState),
      ∃ ins, (recordLoserHistory st did aid now syncId rels).history = st.history ++ ins
        ∧ (∀ h ∈ ins, h.is_current = false) ∧ (∀ h ∈ ins, st.nextHistId ≤ h.id) := by
  intro rels
  induction rels with
  | nil =>
    intro st
    exact ⟨[], (List.append_nil _).symm, fun h hm => absurd hm (List.not_mem_nil h),
      fun h hm => absurd hm (List.not_mem_nil h)⟩
  | cons r rs ih =>
    intro st
    have step : recordLoserHistory st did aid now syncId (r :: rs) =
        recordLoserHistory
          (match findAnyHistoryFor st did r.employee_id with
           | some _ => st
           | none =>
             insertHistory st did r.employee_id aid r.registered_date now false syncId)
          did aid now syncId rs := rfl
    rw [step]
    cases hfa : findAnyHistoryFor st did r.employee_id with
    | some x => exact ih st
    | none =>
      obtain ⟨ins, hins, hcur, hge⟩ :=
        ih (insertHistory st did r.employee_id aid r.registered_date now false syncId)
      refine ⟨
        { id := st.nextHistId
          device_id := did
          employee_id := r.employee_id
          azure_device_id := some aid
          registered_date := r.registered_date
          assignment_date := now
          unassignment_date := none
          is_current := false
          sync_id := syncId } :: ins, ?_, ?_, ?_⟩
      · rw [hins]
        unfold insertHistory
        simp
      · intro h hm
        rcases List.mem_cons.mp hm with rfl | hm
        · rfl
        · exact hcur h hm
      · intro h hm
        rcases List.mem_cons.mp hm with rfl | hm
        · exact le_refl _
        · exact le_trans (Nat.le_succ _) (hge h hm)

theorem entraResolve_mem {st : DirState} {obs : AzureDeviceObs} {d : Device}
    (h : entraResolve st obs = some d) : d ∈ st.devices := by
  unfold entraResolve at h
  cases h1 : entraFindByAzureId st obs.id with
  | some x =>
    simp only [h1] at h
    injection h with h'
    subst h'
    unfold entraFindByAzureId at h1
    exact (exactlyOne_eq_some h1).1
  | none =>
    simp only [h1] at h
    cases h2 : entraSerialStage st obs with
    | some x =>
      simp only [h2] at h
      injection h with h'
      subst h'
      unfold entraSerialStage at h2
      cases hsn : extractSerialNumber (obs.displayName.getD "") with
      | none =>
        simp only [hsn] at h2
        exact Option.noConfusion h2
      | some sn =>
        simp only [hsn] at h2
        by_cases he : sn = ""
        · rw [if_pos he] at h2
          exact Option.noConfusion h2
        · rw [if_neg he] at h2
          unfold entraFindBySerial at h2
          exact List.mem_of_mem_filter (mem_of_head? h2)
    | none =>
      simp only [h2] at h
      unfold entraNameStage at h
      cases hdn : obs.displayName with
      | none =>
        simp only [hdn] at h
        exact Option.noConfusion h
      | some dn =>
        simp only [hdn] at h
        by_cases he : dn = ""
        · rw [if_pos he] at h
          exact Option.noConfusion h
        · rw [if_neg he] at h
          unfold entraFindByName at h
          exact (exactlyOne_eq_some h).1

theorem closeCurrentHistory_hist_ids (st : DirState) (did : Nat) (e : String) (now : Nat) :
    ((closeCurrentHistory st did e now).history.map fun h => h.id) =
      st.history.map fun h => h.id := by
  unfold closeCurrentHistory
  apply ids_map_cond
  intro x
  rfl

theorem setHistoryRegisteredDate_hist_ids (st : DirState) (hid reg : Nat) :
    ((setHistoryRegisteredDate st hid reg).history.map fun h => h.id) =
      st.history.map fun h => h.id := by
  unfold setHistoryRegisteredDate
  apply ids_map_cond
  intro x
  rfl

theorem updateDeviceRow_dev_ids (st : DirState) (t : Nat) (f : Device → Device)
    (hf : ∀ x, (f x).id = x.id) :
    ((updateDeviceRow st t f).devices.map fun d => d.id) = st.devices.map fun d => d.id := by
  unfold updateDeviceRow
  apply ids_map_cond
  exact hf

theorem insertHistory_hist_ids (st : DirState) (did : Nat) (e aid : String)
    (reg now : Nat) (isCur : Bool) (syncId : Nat) :
    ((insertHistory st did e aid reg now isCur syncId).history.map fun h => h.id) =
      (st.history.map fun h => h.id) ++ [st.nextHistId] := by
  unfold insertHistory
  simp

theorem insertHistory_nodup_fresh (st : DirState) (did : Nat) (e aid : String)
    (reg now : Nat) (isCur : Bool) (syncId : Nat)
    (hN : histIdsNodup st) (hF : histIdsFresh st) :
    histIdsNodup (insertHistory st did e aid reg now isCur syncId)
    ∧ histIdsFresh (insertHistory st did e aid reg now isCur syncId) := by
  constructor
  · unfold histIdsNodup
    rw [insertHistory_hist_ids]
    rw [List.nodup_append]
    refine ⟨hN, List.nodup_singleton _, ?_⟩
    intro a ha hb
    rw [List.mem_singleton] at hb
    subst hb
    obtain ⟨h0, hmem, hid⟩ := List.mem_map.mp ha
    exact absurd hid (Nat.ne_of_lt (hF h0 hmem))
  · intro h hm
    unfold insertHistory at hm
    simp only [List.mem_append, List.mem_singleton] at hm
    show h.id < st.nextHistId + 1
    rcases hm with hm | hm
    · exact Nat.lt_succ_of_lt (hF h hm)
    · rw [hm]
      exact Nat.lt_succ_self _

theorem delete_hist_count_le (st : DirState) (tid did : Nat) :
    ((deleteDeviceCascade st tid).history.filter
      fun h => h.device_id == did && h.is_current).length ≤
    (st.history.filter fun h => h.device_id == did && h.is_current).length :=
  List.Sublist.length_le (List.Sublist.filter _ (List.filter_sublist _))

theorem deleteDeviceCascade_nodup_fresh (st : DirState) (tid : Nat)
    (inv : SyncInvariant st) : SyncInvariant (deleteDeviceCascade st tid) := by
  obtain ⟨hN, hDF, hHN, hHF, hNE, hAM, hCM⟩ := inv
  have hdsub : (deleteDeviceCascade st tid).devices.Sublist st.devices :=
    List.filter_sublist _
  have hhsub : (deleteDeviceCascade st tid).history.Sublist st.history :=
    List.filter_sublist _
  refine ⟨?_, ?_, ?_, ?_, ?_, ?_, ?_⟩
  · exact List.Nodup.sublist (List.Sublist.map _ hdsub) hN
  · intro d hd
    exact hDF d (hdsub.mem hd)
  · exact List.Nodup.sublist (List.Sublist.map _ hhsub) hHN
  · intro h hh
    exact hHF h (hhsub.mem hh)
  · intro d hd
    exact hNE d (hdsub.mem hd)
  · intro did
    exact le_trans (delete_hist_count_le st tid did) (hAM did)
  · intro h hh hcur
    have hmem := List.mem_filter.mp hh
    obtain ⟨d2, hd2, hid, hemp⟩ := hCM h (hhsub.mem hh) hcur
    refine ⟨d2, ?_, hid, hemp⟩
    apply List.mem_filter.mpr
    refine ⟨hd2, ?_⟩
    rw [hid]
    exact hmem.2

theorem recordLoserHistory_nextDevId (did : Nat) (aid : String) (now syncId : Nat) :
    ∀ (rels : List DeviceUserRel) (st : DirState),
      (recordLoserHistory st did aid now syncId rels).nextDevId = st.nextDevId := by
  intro rels
  induction rels with
  | nil => intro st; rfl
  | cons r rs ih =>
    intro st
    have step : recordLoserHistory st did aid now syncId (r :: rs) =
        recordLoserHistory
          (match findAnyHistoryFor st did r.employee_id with
           | some _ => st
           | none =>
             insertHistory st did r.employee_id aid r.registered_date now false syncId)
          did aid now syncId rs := rfl
    rw [step, ih]
    cases findAnyHistoryFor st did r.employee_id <;> rfl

theorem recordLoser_nodup_fresh (did : Nat) (aid : String) (now syncId : Nat) :
    ∀ (rels : List DeviceUserRel) (st : DirState),
      histIdsNodup st → histIdsFresh st →
      histIdsNodup (recordLoserHistory st did aid now syncId rels)
      ∧ histIdsFresh (recordLoserHistory st did aid now syncId rels) := by
  intro rels
  induction rels with
  | nil => intro st hN hF; exact ⟨hN, hF⟩
  | cons r rs ih =>
    intro st hN hF
    have step : recordLoserHistory st did aid now syncId (r :: rs) =
        recordLoserHistory
          (match findAnyHistoryFor st did r.employee_id with
           | some _ => st
           | none =>
             insertHistory st did r.employee_id aid r.registered_date now false syncId)
          did aid now syncId rs := rfl
    rw [step]
    cases findAnyHistoryFor st did r.employee_id with
    | some x => exact ih st hN hF
    | none =>
      obtain ⟨hN', hF'⟩ :=
        insertHistory_nodup_fresh st did r.employee_id aid r.registered_date now
          false syncId hN hF
      exact ih _ hN' hF'

theorem recordLoser_count_eq (did : Nat) (aid : String) (now syncId : Nat)
    (rels : List DeviceUserRel) (st : DirState) (did' : Nat) :
    ((recordLoserHistory st did aid now syncId rels).history.filter
      fun h => h.device_id == did' && h.is_current).length =
    (st.history.filter fun h => h.device_id == did' && h.is_current).length := by
  obtain ⟨ins, hdec, hcur, _⟩ := recordLoser_history_decomp did aid now syncId rels st
  rw [hdec, List.filter_append, List.length_append]
  have hlen : (ins.filter fun h => h.device_id == did' && h.is_current).length = 0 := by
    rw [← List.countP_eq_length_filter]
    apply List.countP_eq_zero.mpr
    intro h hm
    simp [hcur h hm]
  rw [hlen, Nat.add_zero]

theorem recordLoser_currentMatches (did : Nat) (aid : String) (now syncId : Nat)
    (rels : List DeviceUserRel) (st : DirState) (h2 : currentMatchesDevice st) :
    currentMatchesDevice (recordLoserHistory st did aid now syncId rels) := by
  intro h hm hcur
  obtain ⟨ins, hdec, hcurins, _⟩ := recordLoser_history_decomp did aid now syncId rels st
  rw [hdec] at hm
  rcases List.mem_append.mp hm with hm | hm
  · obtain ⟨d2, hd2, hid, hemp⟩ := h2 h hm hcur
    refine ⟨d2, ?_, hid, hemp⟩
    rw [recordLoserHistory_devices]
    exact hd2
  · rw [hcurins h hm] at hcur
    exact Bool.noConfusion hcur

theorem syncInvariant_empty : SyncInvariant DirState.empty := by
  refine ⟨List.nodup_nil, ?_, List.nodup_nil, ?_, ?_, ?_, ?_⟩
  · intro d hd
    exact absurd hd (List.not_mem_nil d)
  · intro h hh
    exact absurd hh (List.not_mem_nil h)
  · intro d hd
    exact absurd hd (List.not_mem_nil d)
  · intro did
    exact Nat.zero_le 1
  · intro h hh
    exact absurd hh (List.not_mem_nil h)

/-- Invariant preservation through `updateDeviceRow`, provided the rewrite
keeps ids, writes no empty external ids on the touched row, and either keeps
the touched row's `employee_id` or that row had no current history rows. -/
theorem inv_updateDeviceRow (st : DirState) (t : Nat) (f : Device → Device)
    (hfid : ∀ x, (f x).id = x.id)
    (hfok : ∀ x ∈ st.devices, x.id = t →
        (f x).azure_device_id ≠ some "" ∧ (f x).employee_id ≠ some "" ∧
        ((f x).employee_id = x.employee_id ∨
          ∀ h ∈ st.history, h.is_current = true → h.device_id ≠ x.id))
    (inv : SyncInvariant st) :
    SyncInvariant (updateDeviceRow st t f) := by
  obtain ⟨hN, hDF, hHN, hHF, hNE, hAM, hCM⟩ := inv
  refine ⟨?_, ?_, ?_, ?_, ?_, ?_, ?_⟩
  · unfold devIdsNodup
    rw [updateDeviceRow_dev_ids st t f hfid]
    exact hN
  · intro d hd
    obtain ⟨d0, hd0, hval⟩ := mem_updateDeviceRow hd
    show d.id < st.nextDevId
    by_cases hc : d0.id = t
    · rw [if_pos hc] at hval
      rw [hval, hfid d0]
      exact hDF d0 hd0
    · rw [if_neg hc] at hval
      rw [hval]
      exact hDF d0 hd0
  · exact hHN
  · intro h hh
    exact hHF h hh
  · intro d hd
    obtain ⟨d0, hd0, hval⟩ := mem_updateDeviceRow hd
    by_cases hc : d0.id = t
    · rw [if_pos hc] at hval
      obtain ⟨ha, he, _⟩ := hfok d0 hd0 hc
      rw [hval]
      exact ⟨ha, he⟩
    · rw [if_neg hc] at hval
      rw [hval]
      exact hNE d0 hd0
  · intro did
    exact hAM did
  · intro h hh hcur
    obtain ⟨d2, hd2, hid, hemp⟩ := hCM h hh hcur
    by_cases hc : d2.id = t
    · obtain ⟨_, _, hpres⟩ := hfok d2 hd2 hc
      rcases hpres with hpres | hnone
      · refine ⟨f d2, ?_, ?_, ?_⟩
        · apply List.mem_map.mpr
          refine ⟨d2, hd2, ?_⟩
          show (if d2.id = t then f d2 else d2) = f d2
          rw [if_pos hc]
        · rw [hfid d2]
          exact hid
        · rw [hpres]
          exact hemp
      · exact absurd hid.symm (hnone h hh hcur)
    · refine ⟨d2, ?_, hid, hemp⟩
      apply List.mem_map.mpr
      refine ⟨d2, hd2, ?_⟩
      show (if d2.id = t then f d2 else d2) = d2
      rw [if_neg hc]

/-- Invariant preservation through appending a fresh device row with no
empty-string external ids. -/
theorem inv_appendDevice (st : DirState) (newd : Device) (hid : newd.id = st.nextDevId)
    (hne : newd.azure_device_id ≠ some "" ∧ newd.employee_id ≠ some "")
    (inv : SyncInvariant st) :
    SyncInvariant
      { st with devices := st.devices ++ [newd], nextDevId := st.nextDevId + 1 } := by
  obtain ⟨hN, hDF, hHN, hHF, hNE, hAM, hCM⟩ := inv
  refine ⟨?_, ?_, ?_, ?_, ?_, ?_, ?_⟩
  · unfold devIdsNodup
    show ((st.devices ++ [newd]).map fun d => d.id).Nodup
    rw [List.map_append]
    rw [List.nodup_append]
    refine ⟨hN, List.nodup_singleton _, ?_⟩
    intro a ha hb
    simp only [List.map_cons, List.map_nil, List.mem_singleton] at hb
    subst hb
    obtain ⟨d0, hmem, hid0⟩ := List.mem_map.mp ha
    rw [hid] at hid0
    exact absurd hid0 (Nat.ne_of_lt (hDF d0 hmem))
  · intro d hd
    show d.id < st.nextDevId + 1
    rcases List.mem_append.mp hd with hd | hd
    · exact Nat.lt_succ_of_lt (hDF d hd)
    · rw [List.mem_singleton.mp hd, hid]
      exact Nat.lt_succ_self _
  · exact hHN
  · intro h hh
    exact hHF h hh
  · intro d hd
    rcases List.mem_append.mp hd with hd | hd
    · exact hNE d hd
    · rw [List.mem_singleton.mp hd]
      exact hne
  · intro did
    exact hAM did
  · intro h hh hcur
    obtain ⟨d2, hd2, hid2, hemp⟩ := hCM h hh hcur
    exact ⟨d2, List.mem_append_left _ hd2, hid2, hemp⟩

/-- Invariant preservation through the directory per-device upsert. -/
theorem inv_entraUpsert (st : DirState) (obs : AzureDeviceObs) (now : Nat)
    (hobs : obs.id ≠ "") (inv : SyncInvariant st) :
    SyncInvariant (entraUpsertDevice st obs now) := by
  have hN : devIdsNodup st := inv.1
  have hNE : noEmptyExternalIds st := inv.2.2.2.2.1
  cases hE : entraResolve st obs with
  | some e =>
    have he' : e ∈ st.devices := entraResolve_mem hE
    cases hEe : e.employee_id with
    | none =>
      simp only [entraUpsertDevice, hE, hEe]
      refine inv_updateDeviceRow st e.id _ (fun x => rfl) ?_ inv
      intro x hx hxt
      refine ⟨?_, ?_, Or.inl rfl⟩
      · intro hc
        injection hc with hc'
        exact hobs hc'
      · exact (hNE x hx).2
    | some emp =>
      have hene : emp ≠ "" := by
        intro hc
        exact (hNE e he').2 (by rw [hEe, hc])
      simp only [entraUpsertDevice, hE, hEe, if_neg hene]
      refine inv_updateDeviceRow st e.id _ (fun x => rfl) ?_ inv
      intro x hx hxt
      have hxe : x = e := device_id_inj hN hx he' hxt
      refine ⟨?_, ?_, Or.inl ?_⟩
      · intro hc
        injection hc with hc'
        exact hobs hc'
      · intro hc
        injection hc with hc'
        exact hene hc'
      · show some emp = x.employee_id
        rw [hxe, hEe]
  | none =>
    simp only [entraUpsertDevice, hE]
    refine inv_appendDevice st _ rfl ⟨?_, ?_⟩ inv
    · intro hc
      injection hc with hc'
      exact hobs hc'
    · exact Option.noConfusion

/-- Invariant preservation through the NinjaOne per-device upsert. -/
theorem inv_ninjaUpsert (st : DirState) (obs : NinjaObs) (now : Nat)
    (inv : SyncInvariant st) : SyncInvariant (ninjaUpsertDevice st obs now) := by
  have hN : devIdsNodup st := inv.1
  have hNE : noEmptyExternalIds st := inv.2.2.2.2.1
  rcases ninjaUpsertDevice_branches st obs now (fun x hx => (hNE x hx).1) with
    ⟨st0, tgt, dd, hEq, htgt, hsub, hP, hst0, hEe, hAe⟩ | ⟨dd, hEq, hddE, hddA⟩
  · have hinv0 : SyncInvariant st0 := by
      rcases hst0 with rfl | ⟨delId, heq0⟩
      · exact inv
      · rw [heq0]
        exact deleteDeviceCascade_nodup_fresh st delId inv
    rw [hEq]
    refine inv_updateDeviceRow st0 tgt.id _ (fun x => rfl) ?_ hinv0
    intro x hx hxt
    have hxst : x ∈ st.devices := hsub x hx
    have hxtgt : x = tgt := device_id_inj hN hxst htgt hxt
    refine ⟨?_, ?_, ?_⟩
    · have hform : (applyNinjaDeviceData dd x).azure_device_id =
          match dd.azure_device_id with
          | some a => some a
          | none => x.azure_device_id := rfl
      rw [hform]
      cases hda : dd.azure_device_id with
      | some a => exact fun hc => hAe (hda.trans hc)
      | none => exact (hNE x hxst).1
    · have hform : (applyNinjaDeviceData dd x).employee_id =
          match dd.employee_id with
          | some e => some e
          | none => x.employee_id := rfl
      rw [hform]
      cases hde : dd.employee_id with
      | some e => exact fun hc => hEe (hde.trans hc)
      | none => exact (hNE x hxst).2
    · cases hte : tgt.employee_id with
      | some e0 =>
        by_cases h0 : e0 = ""
        · exact absurd (hte.trans (by rw [h0])) ((hNE tgt htgt).2)
        · left
          have hdd := hP e0 hte h0
          have hform : (applyNinjaDeviceData dd x).employee_id =
              match dd.employee_id with
              | some e => some e
              | none => x.employee_id := rfl
          rw [hform, hdd]
          show some e0 = x.employee_id
          rw [hxtgt, hte]
      | none =>
        right
        intro h hh hcur
        have hCM0 : currentMatchesDevice st0 := hinv0.2.2.2.2.2.2
        obtain ⟨d2, hd2, hid2, hemp2⟩ := hCM0 h hh hcur
        intro hdev
        have hd2x : d2 = x := device_id_inj hN (hsub d2 hd2) hxst (by rw [hid2, hdev])
        rw [hd2x, hxtgt, hte] at hemp2
        exact Option.noConfusion hemp2
  · rw [hEq]
    unfold insertNinjaDevice
    refine inv_appendDevice st _ rfl ⟨?_, ?_⟩ inv
    · show dd.azure_device_id ≠ some ""
      rw [hddA]
      exact Option.noConfusion
    · show dd.employee_id ≠ some ""
      rw [hddE]
      exact Option.noConfusion

theorem unregisterSnapshot_src_full {st : DirState} {observed : List String}
    {pr : Nat × String} (h : pr ∈ unregisterSnapshot st observed) :
    ∃ y ∈ st.devices, y.id = pr.1 ∧ y.employee_id = some pr.2 := by
  unfold unregisterSnapshot at h
  rw [List.mem_filterMap] at h
  obtain ⟨y, hy, hval⟩ := h
  cases haz : y.azure_device_id with
  | none =>
    exfalso
    simp only [haz] at hval
    exact Option.noConfusion hval
  | some a =>
    cases hemp : y.employee_id with
    | none =>
      exfalso
      simp only [haz, hemp] at hval
      exact Option.noConfusion hval
    | some e' =>
      simp only [haz, hemp] at hval
      by_cases hguard : a = "" ∨ e' = "" ∨ a ∈ observed
      · rw [if_pos hguard] at hval
        exact absurd hval (by simp)
      · rw [if_neg hguard] at hval
        injection hval with hpr
        exact ⟨y, hy, by rw [← hpr], by rw [← hpr, hemp]⟩

/-- Invariant preservation through one unregistration step, given that the
device rows carrying the snapshot id still hold the snapshot employee. -/
theorem inv_unregisterOne (cur : DirState) (did : Nat) (e : String) (now : Nat)
    (inv : SyncInvariant cur)
    (hagree : ∀ drow ∈ cur.devices, drow.id = did → drow.employee_id = some e) :
    SyncInvariant (unregisterOne cur did e now) := by
  obtain ⟨hN, hDF, hHN, hHF, hNE, hAM, hCM⟩ := inv
  unfold unregisterOne setDeviceEmployee
  have hinvC : SyncInvariant (closeCurrentHistory cur did e now) := by
    refine ⟨hN, fun d hd => hDF d hd, ?_, ?_, fun d hd => hNE d hd, ?_, ?_⟩
    · unfold histIdsNodup
      rw [closeCurrentHistory_hist_ids]
      exact hHN
    · intro h hh
      show h.id < cur.nextHistId
      obtain ⟨h0, hh0, hval⟩ := List.mem_map.mp hh
      have hid : h.id = h0.id := by
        rw [← hval]
        by_cases hc : h0.device_id = did ∧ h0.employee_id = e ∧ h0.is_current = true
        · rw [if_pos hc]
        · rw [if_neg hc]
      rw [hid]
      exact hHF h0 hh0
    · intro did'
      exact le_trans (close_count_le cur did e now did') (hAM did')
    · intro h hh hcur
      obtain ⟨h0, hh0, hval⟩ := List.mem_map.mp hh
      by_cases hc : h0.device_id = did ∧ h0.employee_id = e ∧ h0.is_current = true
      · rw [if_pos hc] at hval
        rw [← hval] at hcur
        exact Bool.noConfusion hcur
      · rw [if_neg hc] at hval
        subst hval
        exact hCM h0 hh0 hcur
  refine inv_updateDeviceRow (closeCurrentHistory cur did e now) did _
    (fun x => rfl) ?_ hinvC
  intro x hx hxt
  refine ⟨(hNE x hx).1, Option.noConfusion, Or.inr ?_⟩
  intro h hh hcur hdev
  obtain ⟨h0, hh0, hval⟩ := List.mem_map.mp hh
  by_cases hc : h0.device_id = did ∧ h0.employee_id = e ∧ h0.is_current = true
  · rw [if_pos hc] at hval
    rw [← hval] at hcur
    exact Bool.noConfusion hcur
  · rw [if_neg hc] at hval
    subst hval
    obtain ⟨d2, hd2, hid2, hemp2⟩ := hCM h0 hh0 hcur
    have hd2did : d2.id = did := by rw [hid2, hdev, hxt]
    have hde := hagree d2 hd2 hd2did
    rw [hde] at hemp2
    injection hemp2 with hemp3
    exact hc ⟨by rw [hdev, hxt], hemp3.symm, hcur⟩

theorem inv_unregisterFold (now : Nat) :
    ∀ (snap : List (Nat × String)) (cur : DirState),
      (snap.map Prod.fst).Nodup →
      SyncInvariant cur →
      (∀ pr ∈ snap, ∀ drow ∈ cur.devices, drow.id = pr.1 →
        drow.employee_id = some pr.2) →
      SyncInvariant (unregisterFold now snap cur) := by
  intro snap
  induction snap with
  | nil =>
    intro cur _ inv _
    exact inv
  | cons pr rest ih =>
    intro cur hnd inv hagree
    have step : unregisterFold now (pr :: rest) cur =
        unregisterFold now rest (unregisterOne cur pr.1 pr.2 now) := rfl
    rw [step]
    rw [List.map_cons, List.nodup_cons] at hnd
    have hinv' : SyncInvariant (unregisterOne cur pr.1 pr.2 now) :=
      inv_unregisterOne cur pr.1 pr.2 now inv
        (fun drow hdrow hid => hagree pr (List.mem_cons_self pr rest) drow hdrow hid)
    refine ih _ hnd.2 hinv' ?_
    intro pr' hpr' drow hdrow hid
    have hdrow' : drow ∈ (updateDeviceRow (closeCurrentHistory cur pr.1 pr.2 now) pr.1
        (fun d => { d with employee_id := none })).devices := hdrow
    obtain ⟨d0, hd0, hval⟩ := mem_updateDeviceRow hdrow'
    have hd0cur : d0 ∈ cur.devices := hd0
    by_cases hc : d0.id = pr.1
    · rw [if_pos hc] at hval
      have hdid : drow.id = d0.id := by rw [hval]
      have hpp : pr.1 = pr'.1 := by rw [← hc, ← hdid, hid]
      exact absurd (by rw [hpp]; exact List.mem_map_of_mem Prod.fst hpr') hnd.1
    · rw [if_neg hc] at hval
      rw [hval]
      exact hagree pr' (List.mem_cons_of_mem pr hpr') d0 hd0cur (by rw [← hval]; exact hid)

theorem inv_entraUnregister (st : DirState) (observed : List String) (now : Nat)
    (inv : SyncInvariant st) : SyncInvariant (entraUnregisterPass st observed now) := by
  unfold entraUnregisterPass
  refine inv_unregisterFold now (unregisterSnapshot st observed) st
    (unregisterSnapshot_ids_nodup st observed inv.1) inv ?_
  intro pr hpr drow hdrow hid
  obtain ⟨y, hy, hyid, hyemp⟩ := unregisterSnapshot_src_full hpr
  have hdy : drow = y := device_id_inj inv.1 hdrow hy (by rw [hid, ← hyid])
  rw [hdy]
  exact hyemp

theorem inv_closeCurrentHistory (cur : DirState) (did : Nat) (e : String) (now : Nat)
    (inv : SyncInvariant cur) : SyncInvariant (closeCurrentHistory cur did e now) := by
  obtain ⟨hN, hDF, hHN, hHF, hNE, hAM, hCM⟩ := inv
  refine ⟨hN, fun d hd => hDF d hd, ?_, ?_, fun d hd => hNE d hd, ?_, ?_⟩
  · unfold histIdsNodup
    rw [closeCurrentHistory_hist_ids]
    exact hHN
  · intro h hh
    show h.id < cur.nextHistId
    obtain ⟨h0, hh0, hval⟩ := List.mem_map.mp hh
    have hid : h.id = h0.id := by
      rw [← hval]
      by_cases hc : h0.device_id = did ∧ h0.employee_id = e ∧ h0.is_current = true
      · rw [if_pos hc]
      · rw [if_neg hc]
    rw [hid]
    exact hHF h0 hh0
  · intro did'
    exact le_trans (close_count_le cur did e now did') (hAM did')
  · intro h hh hcur
    obtain ⟨h0, hh0, hval⟩ := List.mem_map.mp hh
    by_cases hc : h0.device_id = did ∧ h0.employee_id = e ∧ h0.is_current = true
    · rw [if_pos hc] at hval
      rw [← hval] at hcur
      exact Bool.noConfusion hcur
    · rw [if_neg hc] at hval
      subst hval
      exact hCM h0 hh0 hcur

theorem inv_setHistoryRegisteredDate (cur : DirState) (hid reg : Nat)
    (inv : SyncInvariant cur) : SyncInvariant (setHistoryRegisteredDate cur hid reg) := by
  obtain ⟨hN, hDF, hHN, hHF, hNE, hAM, hCM⟩ := inv
  refine ⟨hN, fun d hd => hDF d hd, ?_, ?_, fun d hd => hNE d hd, ?_, ?_⟩
  · unfold histIdsNodup
    rw [setHistoryRegisteredDate_hist_ids]
    exact hHN
  · intro h hh
    show h.id < cur.nextHistId
    obtain ⟨h0, hh0, hval⟩ := List.mem_map.mp hh
    have hid2 : h.id = h0.id := by
      rw [← hval]
      by_cases hc : h0.id = hid
      · rw [if_pos hc]
      · rw [if_neg hc]
    rw [hid2]
    exact hHF h0 hh0
  · intro did'
    rw [setReg_count_eq]
    exact hAM did'
  · intro h hh hcur
    obtain ⟨h0, hh0, hval⟩ := List.mem_map.mp hh
    have hsame : h.is_current = h0.is_current ∧ h.device_id = h0.device_id ∧
        h.employee_id = h0.employee_id := by
      rw [← hval]
      by_cases hc : h0.id = hid
      · rw [if_pos hc]
        exact ⟨rfl, rfl, rfl⟩
      · rw [if_neg hc]
        exact ⟨rfl, rfl, rfl⟩
    obtain ⟨d2, hd2, hid2, hemp2⟩ := hCM h0 hh0 (hsame.1 ▸ hcur)
    refine ⟨d2, hd2, ?_, ?_⟩
    · rw [hsame.2.1]
      exact hid2
    · rw [hsame.2.2]
      exact hemp2

theorem inv_reconcileClose (st : DirState) (dr : Device) (w : DeviceUserRel) (now : Nat)
    (inv : SyncInvariant st) : SyncInvariant (reconcileClose st dr w now) := by
  cases hd : dr.employee_id with
  | none =>
    simp only [reconcileClose, hd]
    exact inv
  | some p =>
    simp only [reconcileClose, hd]
    by_cases h : p ≠ w.employee_id
    · rw [if_pos h]
      exact inv_closeCurrentHistory st dr.id p now inv
    · rw [if_neg h]
      exact inv

/-- After the resolver's close step, any history row that is still current
for the resolved device carries the winner's employee id. -/
theorem reconcileClose_key (st : DirState) (dr : Device) (w : DeviceUserRel) (now : Nat)
    (hN : devIdsNodup st) (hCM : currentMatchesDevice st) (hdr : dr ∈ st.devices) :
    ∀ h ∈ (reconcileClose st dr w now).history, h.is_current = true →
      h.device_id = dr.id → h.employee_id = w.employee_id := by
  cases hdre : dr.employee_id with
  | none =>
    simp only [reconcileClose, hdre]
    intro h hh hcur hdev
    obtain ⟨d2, hd2, hid2, hemp2⟩ := hCM h hh hcur
    have hd2dr : d2 = dr := device_id_inj hN hd2 hdr (by rw [hid2, hdev])
    rw [hd2dr, hdre] at hemp2
    exact Option.noConfusion hemp2
  | some p =>
    simp only [reconcileClose, hdre]
    by_cases hpw : p ≠ w.employee_id
    · rw [if_pos hpw]
      intro h hh hcur hdev
      obtain ⟨h0, hh0, hval⟩ := List.mem_map.mp hh
      by_cases hc : h0.device_id = dr.id ∧ h0.employee_id = p ∧ h0.is_current = true
      · rw [if_pos hc] at hval
        rw [← hval] at hcur
        exact Bool.noConfusion hcur
      · rw [if_neg hc] at hval
        subst hval
        obtain ⟨d2, hd2, hid2, hemp2⟩ := hCM h0 hh0 hcur
        have hd2dr : d2 = dr := device_id_inj hN hd2 hdr (by rw [hid2, hdev])
        rw [hd2dr, hdre] at hemp2
        injection hemp2 with hpe
        exact absurd ⟨hdev, hpe.symm, hcur⟩ hc
    · rw [if_neg hpw]
      have hpw' : p = w.employee_id := not_not.mp hpw
      intro h hh hcur hdev
      obtain ⟨d2, hd2, hid2, hemp2⟩ := hCM h hh hcur
      have hd2dr : d2 = dr := device_id_inj hN hd2 hdr (by rw [hid2, hdev])
      rw [hd2dr, hdre] at hemp2
      injection hemp2 with hpe
      rw [← hpe]
      exact hpw'

/-- Invariant preservation through the resolver's ensure-current step, given
that every still-current row of the device carries the winner and some device
row with that id holds the winner's assignment. -/
theorem inv_reconcileEnsureCurrent (stS : DirState) (did : Nat) (w : DeviceUserRel)
    (aid : String) (now syncId : Nat)
    (inv : SyncInvariant stS)
    (hkey : ∀ h ∈ stS.history, h.is_current = true → h.device_id = did →
      h.employee_id = w.employee_id)
    (hdev : ∃ d' ∈ stS.devices, d'.id = did ∧ d'.employee_id = some w.employee_id) :
    SyncInvariant (reconcileEnsureCurrent stS did w aid now syncId) := by
  obtain ⟨hN, hDF, hHN, hHF, hNE, hAM, hCM⟩ := inv
  unfold reconcileEnsureCurrent
  cases hF : findCurrentHistoryFor stS did w.employee_id with
  | some hrow =>
    exact inv_setHistoryRegisteredDate stS hrow.id w.registered_date
      ⟨hN, hDF, hHN, hHF, hNE, hAM, hCM⟩
  | none =>
    have hzero : (stS.history.filter
        fun h => h.device_id == did && h.is_current).length = 0 := by
      have hq := exactlyOne_eq_none (show exactlyOne
        (fun h => h.device_id == did && h.employee_id == w.employee_id && h.is_current)
        stS.history = none from hF)
      have hmono : List.countP (fun h => h.device_id == did && h.is_current)
          stS.history ≤
          List.countP (fun h =>
            h.device_id == did && h.employee_id == w.employee_id && h.is_current)
            stS.history := by
        apply List.countP_mono_left
        intro h hm hp
        rw [Bool.and_eq_true, beq_iff_eq] at hp
        have hemp := hkey h hm hp.2 hp.1
        simp [hp.1, hp.2, hemp]
      rcases hq with hq | hq
      · rw [← List.countP_eq_length_filter]
        have hq0 : List.countP (fun h =>
            h.device_id == did && h.employee_id == w.employee_id && h.is_current)
            stS.history = 0 := by
          rw [List.countP_eq_length_filter, hq]
          rfl
        exact Nat.le_zero.mp (hq0 ▸ hmono)
      · exfalso
        have hqle : List.countP (fun h =>
            h.device_id == did && h.employee_id == w.employee_id && h.is_current)
            stS.history ≤
            List.countP (fun h => h.device_id == did && h.is_current) stS.history := by
          apply List.countP_mono_left
          intro h hm hp
          simp only [Bool.and_eq_true] at hp ⊢
          exact ⟨hp.1.1, hp.2⟩
        have hle1 : (stS.history.filter (fun h =>
            h.device_id == did && h.employee_id == w.employee_id && h.is_current)).length
            ≤ 1 := by
          rw [← List.countP_eq_length_filter]
          refine le_trans hqle ?_
          rw [List.countP_eq_length_filter]
          exact hAM did
        omega
    refine ⟨hN, fun d hd => hDF d hd, ?_, ?_, fun d hd => hNE d hd, ?_, ?_⟩
    · exact (insertHistory_nodup_fresh stS did w.employee_id aid w.registered_date now
        true syncId hHN hHF).1
    · exact (insertHistory_nodup_fresh stS did w.employee_id aid w.registered_date now
        true syncId hHN hHF).2
    · intro did'
      rw [insert_count stS did w.employee_id aid w.registered_date now true syncId did']
      by_cases hc : did = did'
      · subst hc
        rw [if_pos ⟨rfl, rfl⟩, hzero]
      · rw [if_neg (fun hand => hc hand.1), Nat.add_zero]
        exact hAM did'
    · intro h hh hcur
      rcases List.mem_append.mp hh with hm | hm
      · obtain ⟨d2, hd2, hid2, hemp2⟩ := hCM h hm hcur
        exact ⟨d2, hd2, hid2, hemp2⟩
      · have hsing := List.mem_singleton.mp hm
        subst hsing
        obtain ⟨d', hd', hid', hemp'⟩ := hdev
        exact ⟨d', hd', hid', hemp'⟩

theorem inv_recordLoser (did : Nat) (aid : String) (now syncId : Nat)
    (rels : List DeviceUserRel) (st : DirState) (inv : SyncInvariant st) :
    SyncInvariant (recordLoserHistory st did aid now syncId rels) := by
  obtain ⟨hN, hDF, hHN, hHF, hNE, hAM, hCM⟩ := inv
  refine ⟨?_, ?_, ?_, ?_, ?_, ?_, ?_⟩
  · unfold devIdsNodup
    rw [recordLoserHistory_devices]
    exact hN
  · intro d hd
    rw [recordLoserHistory_devices] at hd
    show d.id < (recordLoserHistory st did aid now syncId rels).nextDevId
    rw [recordLoserHistory_nextDevId]
    exact hDF d hd
  · exact (recordLoser_nodup_fresh did aid now syncId rels st hHN hHF).1
  · exact (recordLoser_nodup_fresh did aid now syncId rels st hHN hHF).2
  · intro d hd
    rw [recordLoserHistory_devices] at hd
    exact hNE d hd
  · intro did'
    rw [recordLoser_count_eq]
    exact hAM did'
  · exact recordLoser_currentMatches did aid now syncId rels st hCM

/-- Invariant preservation through the conflict resolver for one device. -/
theorem inv_reconcile (st : DirState) (aid : String) (rels : List DeviceUserRel)
    (now syncId : Nat) (hrels : ∀ r ∈ rels, r.employee_id ≠ "")
    (inv : SyncInvariant st) :
    SyncInvariant (reconcileDevice st aid rels now syncId) := by
  unfold reconcileDevice
  cases hL : exactlyOne (fun d => d.azure_device_id == some aid) st.devices with
  | none => exact inv
  | some dr =>
    cases hS : sortRelsDesc rels with
    | nil => exact inv
    | cons w losers =>
      have hdr : dr ∈ st.devices := (exactlyOne_eq_some hL).1
      have hw : w ∈ rels := mem_sortRelsDesc.mp (by rw [hS]; exact List.mem_cons_self w losers)
      have hwne : w.employee_id ≠ "" := hrels w hw
      have hN : devIdsNodup st := inv.1
      have hNE : noEmptyExternalIds st := inv.2.2.2.2.1
      have hCM : currentMatchesDevice st := inv.2.2.2.2.2.2
      have hCinv : SyncInvariant (reconcileClose st dr w now) :=
        inv_reconcileClose st dr w now inv
      have hKEY := reconcileClose_key st dr w now hN hCM hdr
      have hCdev : (reconcileClose st dr w now).devices = st.devices :=
        reconcileClose_devices st dr w now
      have hSinv : SyncInvariant (setDeviceEmployee (reconcileClose st dr w now) dr.id
          (some w.employee_id)) := by
        unfold setDeviceEmployee
        refine inv_updateDeviceRow _ dr.id _ (fun x => rfl) ?_ hCinv
        intro x hx hxt
        have hxst : x ∈ st.devices := by rw [← hCdev]; exact hx
        refine ⟨(hNE x hxst).1, ?_, ?_⟩
        · intro hc
          injection hc with hc'
          exact hwne hc'
        · by_cases hcase : dr.employee_id = some w.employee_id
          · left
            show some w.employee_id = x.employee_id
            rw [device_id_inj hN hxst hdr hxt, hcase]
          · right
            intro h hh hcur hdev0
            have hdevdr : h.device_id = dr.id := by rw [hdev0, hxt]
            have hKemp := hKEY h hh hcur hdevdr
            obtain ⟨d2, hd2, hid2, hemp2⟩ := hCinv.2.2.2.2.2.2 h hh hcur
            have hd2st : d2 ∈ st.devices := by rw [← hCdev]; exact hd2
            have hd2dr : d2 = dr := device_id_inj hN hd2st hdr (by rw [hid2, hdevdr])
            rw [hd2dr, hKemp] at hemp2
            exact hcase hemp2
      have hKEYS : ∀ h ∈ (setDeviceEmployee (reconcileClose st dr w now) dr.id
          (some w.employee_id)).history, h.is_current = true →
          h.device_id = dr.id → h.employee_id = w.employee_id :=
        fun h hh => hKEY h hh
      have hdev' : ∃ d' ∈ (setDeviceEmployee (reconcileClose st dr w now) dr.id
          (some w.employee_id)).devices, d'.id = dr.id ∧
          d'.employee_id = some w.employee_id := by
        refine ⟨{ dr with employee_id := some w.employee_id }, ?_, rfl, rfl⟩
        show _ ∈ (updateDeviceRow (reconcileClose st dr w now) dr.id
          (fun d => { d with employee_id := some w.employee_id })).devices
        apply List.mem_map.mpr
        refine ⟨dr, ?_, ?_⟩
        · rw [hCdev]
          exact hdr
        · show (if dr.id = dr.id then { dr with employee_id := some w.employee_id } else dr)
            = { dr with employee_id := some w.employee_id }
          rw [if_pos rfl]
      have hEinv := inv_reconcileEnsureCurrent _ dr.id w aid now syncId hSinv hKEYS hdev'
      exact inv_recordLoser dr.id aid now syncId losers _ hEinv

/-- C5.  In every store reachable from an empty database by the modelled sync
operations (directory per-device upsert, unregistration pass, per-device
conflict resolution, and NinjaOne per-device upsert), each device has at most
one `device_assignments_history` row with `is_current = true`: the operations
that open a new current entry first close or rule out any other current entry
for that device. -/
theorem history_at_most_one_current (st : DirState) (h : ReachableState st) :
    atMostOneCurrent st := by
  have hinv : SyncInvariant st := by
    induction h with
    | init => exact syncInvariant_empty
    | entraUpsert st obs now hobs hr ih => exact inv_entraUpsert st obs now hobs ih
    | unregister st observed now hr ih => exact inv_entraUnregister st observed now ih
    | reconcile st aid rels now syncId hrels hr ih =>
      exact inv_reconcile st aid rels now syncId hrels ih
    | ninjaUpsert st obs now hr ih => exact inv_ninjaUpsert st obs now ih
  exact hinv.2.2.2.2.2.1

/-- C5 witness: the invariant holds concretely after a directory upsert on the
empty store. -/
theorem history_at_most_one_current_witness :
    atMostOneCurrent
      (entraUpsertDevice DirState.empty
        { id := "az1", displayName := some "HP-ABC123", isManaged := true } 5) :=
  history_at_most_one_current _
    (ReachableState.entraUpsert DirState.empty
      { id := "az1", displayName := some "HP-ABC123", isManaged := true } 5
      (by decide) ReachableState.init)

end EmpSync
